import Mathlib

/-!
Verification of the CubeFS metadata-partition state machine (metanode FSM).

The definitions below are a shallow embedding of the Go source:
the ordered indexes are modelled as lists sorted strictly by key, the
handlers of src/unnamed/part_000 are translated branch by branch, and the
in-memory B-tree of src/metanode/btree_memory.go is modelled over sorted
item lists.  Helper routines of the repository that are not present under
src (nlink bookkeeping, delete marks, version-chain resolution, the
transaction rollback ledger, extent conflict checking) are modelled from
the specification; each such definition carries a doc comment starting
with "Modelled from the spec:".
-/

set_option autoImplicit false

namespace CubeFS

/-- Status bytes returned by FSM handlers (closed set, spec section 6). -/
inductive Status where
  | OpOk
  | OpExistErr
  | OpNotExistErr
  | OpArgMismatchErr
  | OpConflictExtentsErr
  | OpTxInfoNotExistErr
  | OpTxDentryInfoNotExistErr
  | OpTxInodeInfoNotExistErr
  | OpTxConflictErr
  | OpNotEmpty
  | OpErr
  deriving DecidableEq, Repr

open Status

/-- Modelled from the spec: the directory bit of the Go os.FileMode word
(src uses proto.IsDir, defined outside src). -/
def ModeDir : Nat := 2147483648

/-- Modelled from the spec: the symlink bit of the Go os.FileMode word. -/
def ModeSymlink : Nat := 134217728

/-- Modelled from the spec: the mask of all type bits of a Go os.FileMode
word, used by proto.OsModeType (defined outside src) to compute the
high-level type (regular, directory, symlink, other) of a mode. -/
def ModeTypeMask : Nat :=
  ModeDir + ModeSymlink + 2^26 + 2^25 + 2^24 + 2^21 + 2^19

/-- Modelled from the spec: proto.IsDir, true when the mode word carries
the directory type bit. -/
def IsDir (mode : Nat) : Bool := mode &&& ModeDir != 0

/-- Modelled from the spec: proto.OsModeType, the high-level type bits of
a mode word; create-dentry refuses requests whose high-level type differs
from the existing entry. -/
def OsModeType (mode : Nat) : Nat := mode &&& ModeTypeMask

/-- Extent key: pointer into the data-extent store
(partitionId, extentId, extentOffset) covering file range
[fileOffset, fileOffset + size). -/
structure ExtentKey where
  partitionId : Nat
  extentId : Nat
  extentOffset : Nat
  fileOffset : Nat
  size : Nat
  crc : Nat
  isSplit : Bool
  deriving DecidableEq, Repr

/-- Modelled from the spec: one entry of a dentry version chain
(multiSnap.dentryList), newest first, strictly decreasing seq. -/
structure DentryVer where
  ino : Nat
  typ : Nat
  seq : Nat
  deleted : Bool
  deriving DecidableEq, Repr

/-- Directory entry: key (parentId, name), child inode and type, with the
top-layer delete mark, the top-layer snapshot seq and the version chain
(the chain internals are modelled from the spec; the chain code is outside
src). -/
structure Dentry where
  parentId : Nat
  name : String
  ino : Nat
  typ : Nat
  seq : Nat
  deleted : Bool
  dentryList : List DentryVer
  deriving DecidableEq, Repr

/-- Modelled from the spec: one entry of an inode version chain. -/
structure InodeLayer where
  seq : Nat
  extents : List ExtentKey
  deriving DecidableEq, Repr

/-- Inode: file or directory metadata keyed by inode id.  The deleteMark
field models the DeleteMarkFlag bit tested by ShouldDelete (outside src).
-/
structure Inode where
  ino : Nat
  typ : Nat
  uid : Nat
  size : Nat
  nlink : Nat
  atime : Int
  mtime : Int
  deleteMark : Bool
  verSeq : Nat
  extents : List ExtentKey
  multiSnap : List InodeLayer
  deriving DecidableEq, Repr

/-- Extended-attribute record keyed by inode id. -/
structure Extend where
  inode : Nat
  attrs : List (String × String)
  deriving DecidableEq, Repr

/-- Modelled from the spec: rollback kinds staged by the transaction
overlay (forward createDentry stages Delete, deleteDentry stages Add,
updateDentry stages Update). -/
inductive RbType where
  | txAdd
  | txDelete
  | txUpdate
  deriving DecidableEq, Repr

/-- Modelled from the spec: a rollback-ledger record for a dentry, keyed
by the entity (parentId, name) and the transaction id. -/
structure TxRollbackDentry where
  parentId : Nat
  name : String
  txId : String
  rbType : RbType
  dentry : Dentry
  deriving DecidableEq, Repr

/-- Modelled from the spec: the per-dentry info carried inside a
transaction descriptor (proto.TxDentryInfo). -/
structure TxDentryInfo where
  parentId : Nat
  name : String
  txId : String
  deriving DecidableEq, Repr

/-- Modelled from the spec: a transaction descriptor with its id and its
dentry-info table. -/
structure TxInfo where
  txId : String
  txDentryInfos : List TxDentryInfo
  deriving DecidableEq, Repr

/-- Transactional dentry command payload (TxDentry of the source). -/
structure TxDentry where
  txInfo : TxInfo
  dentry : Dentry
  deriving DecidableEq, Repr

/-- Quota-manager side effects emitted by handlers; recorded as events so
theorems can state that no quota counter moves. -/
inductive QuotaOp where
  | addUidSpace (uid ino : Nat) (eks : List ExtentKey)
  | minusUidSpace (uid ino : Nat) (eks : List ExtentKey)
  | updateUsedInfo (bytes files : Int) (ino : Nat)
  deriving DecidableEq, Repr

/-- Partition state: the ordered indexes (lists sorted strictly by key),
the free-list, the snapshot sequence, the transaction idempotency table
(settled txIds), the rollback ledgers, and the captured current time used
for mtime bumps. -/
structure MetaPartition where
  inodeTree : List Inode
  dentryTree : List Dentry
  extendTree : List Extend
  freeList : List Nat
  verSeq : Nat
  txDone : List String
  txRbDentry : List TxRollbackDentry
  txRbInode : List Nat
  now : Int
  deriving DecidableEq, Repr

/-! ## Ordered-index primitives over sorted lists -/

/-- Lexicographic order on char lists, the order Go uses on names
(UTF-8 byte order coincides with code-point order). -/
def clLt : List Char → List Char → Bool
  | [], [] => false
  | [], _ :: _ => true
  | _ :: _, [] => false
  | a :: as, b :: bs => a < b || (a = b && clLt as bs)

/-- Strict lexicographic order on names. -/
def strLt (a b : String) : Bool := clLt a.data b.data

/-- Non-strict lexicographic order on names. -/
def strLe (a b : String) : Bool := strLt a b || a == b

/-- Strict order on dentry keys (parentId, then name). -/
def dkLt (a b : Nat × String) : Bool :=
  a.1 < b.1 || (a.1 == b.1 && strLt a.2 b.2)

/-- Non-strict order on dentry keys. -/
def dkLe (a b : Nat × String) : Bool := dkLt a b || a == b

/-- Key of a dentry record. -/
def dkey (d : Dentry) : Nat × String := (d.parentId, d.name)

/-- Lookup in the dentry index by (parentId, name). -/
def dGet (t : List Dentry) (pid : Nat) (name : String) : Option Dentry :=
  t.find? (fun d => d.parentId = pid && d.name = name)

/-- Sorted insert into the dentry index, replacing an entry with an equal
key (mirrors the B-tree ReplaceOrInsert with replace). -/
def dIns (t : List Dentry) (x : Dentry) : List Dentry :=
  match t with
  | [] => [x]
  | y :: ys =>
    if dkLt (dkey x) (dkey y) then x :: y :: ys
    else if dkey x = dkey y then x :: ys
    else y :: dIns ys x


/-- Remove the first entry with the given key (mirrors B-tree Delete). -/
def dDel (t : List Dentry) (pid : Nat) (name : String) : List Dentry :=
  match t with
  | [] => []
  | y :: ys =>
    if y.parentId = pid ∧ y.name = name then ys else y :: dDel ys pid name

/-- Lookup in the inode index by id. -/
def iGet (t : List Inode) (ino : Nat) : Option Inode :=
  t.find? (fun i => i.ino = ino)

/-- Sorted insert into the inode index, replacing an entry with the same
id. -/
def iIns (t : List Inode) (x : Inode) : List Inode :=
  match t with
  | [] => [x]
  | y :: ys =>
    if x.ino < y.ino then x :: y :: ys
    else if x.ino = y.ino then x :: ys
    else y :: iIns ys x

/-- Remove the first inode with the given id. -/
def iDel (t : List Inode) (ino : Nat) : List Inode :=
  match t with
  | [] => []
  | y :: ys => if y.ino = ino then ys else y :: iDel ys ino

/-- Lookup in the extend (xattr) index by inode id. -/
def eGet (t : List Extend) (ino : Nat) : Option Extend :=
  t.find? (fun e => e.inode = ino)

/-- Remove the first extend record with the given inode id. -/
def eDel (t : List Extend) (ino : Nat) : List Extend :=
  match t with
  | [] => []
  | y :: ys => if y.inode = ino then ys else y :: eDel ys ino

/-! ## Generic ordered index (btree_memory.go) -/

/-- Item of the generic ordered index: a comparable key and a payload
(google btree items compare by Less; we model the key explicitly). -/
structure BItem where
  key : Nat
  val : Nat
  deriving DecidableEq, Repr

/-- Get of the BTree wrapper: first item with the given key. -/
def btGet (t : List BItem) (k : Nat) : Option BItem :=
  t.find? (fun x => x.key = k)

/-- Sorted insert replacing an item with an equal key (the google btree
ReplaceOrInsert primitive). -/
def btIns (t : List BItem) (x : BItem) : List BItem :=
  match t with
  | [] => [x]
  | y :: ys =>
    if x.key < y.key then x :: y :: ys
    else if x.key = y.key then x :: ys
    else y :: btIns ys x

/-- ReplaceOrInsert of btree_memory.go lines 595 to 614: with replace it
always inserts and reports the replaced item; without replace it first
looks the key up, inserts only when absent, and otherwise returns the
existing item with ok set to false, leaving the tree untouched.  Result is
(item, ok, tree). -/
def ReplaceOrInsert (t : List BItem) (x : BItem) (replace : Bool) :
    Option BItem × Bool × List BItem :=
  if replace then (btGet t x.key, true, btIns t x)
  else
    match btGet t x.key with
    | none => (none, true, btIns t x)
    | some it => (some it, false, t)

/-! ## Modelled entity helpers (repository code outside src) -/

/-- Modelled from the spec: Inode.ShouldDelete tests the delete-mark bit
(the inode flag helpers are outside src). -/
def Inode.ShouldDelete (i : Inode) : Bool := i.deleteMark

/-- Modelled from the spec: Inode.IncNLink increments the link count (the
version-migration argument of the source helper is not modelled; outside
src). -/
def Inode.IncNLink (i : Inode) : Inode := { i with nlink := i.nlink + 1 }

/-- Modelled from the spec: Inode.DecNLink decrements the link count,
stopping at zero as the guarded source helper does (outside src). -/
def Inode.DecNLink (i : Inode) : Inode := { i with nlink := i.nlink - 1 }

/-- Modelled from the spec: Inode.SetMtime stamps the captured current
time (outside src). -/
def Inode.SetMtime (i : Inode) (now : Int) : Inode := { i with mtime := now }

/-- Modelled from the spec: the dentry top-layer delete mark (outside
src). -/
def Dentry.isDeleted (d : Dentry) : Bool := d.deleted

/-- Modelled from the spec: the seq field of a dentry request (outside
src). -/
def Dentry.getSeqFiled (d : Dentry) : Nat := d.seq

/-! ## Create dentry (part_000 lines 72 to 133) -/

/-- Write-back of the parent inode after a fresh dentry insert or a
resurrect: IncNLink and SetMtime when the parent was fetched (forceUpdate
skips the fetch and the bump). -/
def applyBump (mp : MetaPartition) (parOpt : Option Inode) : MetaPartition :=
  match parOpt with
  | none => mp
  | some parIno =>
    { mp with
      inodeTree := iIns mp.inodeTree (Inode.SetMtime (Inode.IncNLink parIno) mp.now) }

/-- Insertion half of fsmCreateDentry (part_000 lines 98 to 132): try to
insert; on an existing entry, resurrect a tombstone, refuse a high-level
type mismatch, accept a byte-identical request, otherwise report Exists.
The resurrect overwrites child, seq, type and parent and clears the
delete mark (setVerSeq semantics, modelled from the spec). -/
def denCreateIns (mp : MetaPartition) (dentry : Dentry) (parOpt : Option Inode) :
    Status × MetaPartition :=
  match dGet mp.dentryTree dentry.parentId dentry.name with
  | none =>
    (OpOk, applyBump { mp with dentryTree := dIns mp.dentryTree dentry } parOpt)
  | some d =>
    if d.isDeleted then
      let d2 : Dentry :=
        { d with ino := dentry.ino, seq := dentry.seq, deleted := false,
                 typ := dentry.typ, parentId := dentry.parentId }
      (OpOk, applyBump { mp with dentryTree := dIns mp.dentryTree d2 } parOpt)
    else if OsModeType dentry.typ ≠ OsModeType d.typ then (OpArgMismatchErr, mp)
    else if dentry.parentId = d.parentId ∧ dentry.name = d.name ∧ dentry.ino = d.ino then
      (OpOk, mp)
    else (OpExistErr, mp)

/-- fsmCreateDentry (part_000 lines 72 to 133): unless forced, look up the
parent inode and refuse when it is missing, delete-marked, or not a
directory; then run the insertion half. -/
def fsmCreateDentry (mp : MetaPartition) (dentry : Dentry) (forceUpdate : Bool) :
    Status × MetaPartition :=
  if forceUpdate then denCreateIns mp dentry none
  else
    match iGet mp.inodeTree dentry.parentId with
    | none => (OpNotExistErr, mp)
    | some parIno =>
      if parIno.ShouldDelete then (OpNotExistErr, mp)
      else if !IsDir parIno.typ then (OpArgMismatchErr, mp)
      else denCreateIns mp dentry (some parIno)

/-! ## Transaction overlay (C2) -/

/-- Modelled from the spec: txInRMDone consults the per-partition
idempotency table of settled transaction ids (outside src). -/
def txInRMDone (mp : MetaPartition) (txId : String) : Bool :=
  mp.txDone.contains txId

/-- Modelled from the spec: lookup in the TxDentryInfos table of a
transaction descriptor, keyed by (parentId, name) (GetKey; outside src).
-/
def findTxDenInfo (info : TxInfo) (pid : Nat) (name : String) : Option TxDentryInfo :=
  info.txDentryInfos.find? (fun i => i.parentId = pid && i.name = name)

/-- Modelled from the spec: a rollback record is built from the forward
dentry, the descriptor entry and the rollback kind (outside src). -/
def NewTxRollbackDentry (dentry : Dentry) (info : TxDentryInfo) (t : RbType) :
    TxRollbackDentry :=
  ⟨info.parentId, info.name, info.txId, t, dentry⟩

/-- Modelled from the spec: addTxRollbackDentry stages a rollback record
in the ledger keyed by the entity (parentId, name); a record already
present for the same transaction reports Exists, one for a different
transaction reports TxConflict (outside src). -/
def addTxRollbackDentry (mp : MetaPartition) (rb : TxRollbackDentry) :
    Status × MetaPartition :=
  match mp.txRbDentry.find? (fun r => r.parentId = rb.parentId && r.name = rb.name) with
  | some r => if r.txId = rb.txId then (OpExistErr, mp) else (OpTxConflictErr, mp)
  | none => (OpOk, { mp with txRbDentry := rb :: mp.txRbDentry })

/-- Modelled from the spec: deleteTxRollbackDentry drops the ledger
record of the given entity and transaction (outside src). -/
def deleteTxRollbackDentry (mp : MetaPartition) (pid : Nat) (name : String)
    (txId : String) : MetaPartition :=
  let keep := fun r : TxRollbackDentry =>
    !(r.parentId = pid && r.name = name && r.txId = txId)
  { mp with txRbDentry := mp.txRbDentry.filter keep }

/-- fsmTxCreateDentry (part_000 lines 36 to 69): refuse a settled txId,
refuse a missing descriptor entry, stage a Delete rollback record (replay
returns Ok), run the forward create, and on a non-Ok forward status drop
the rollback record again in the deferred step. -/
def fsmTxCreateDentry (mp : MetaPartition) (txDentry : TxDentry) :
    Status × MetaPartition :=
  if txInRMDone mp txDentry.txInfo.txId then (OpTxInfoNotExistErr, mp)
  else
    match findTxDenInfo txDentry.txInfo txDentry.dentry.parentId txDentry.dentry.name with
    | none => (OpTxDentryInfoNotExistErr, mp)
    | some txDenInfo =>
      let rb := NewTxRollbackDentry txDentry.dentry txDenInfo RbType.txDelete
      let r1 := addTxRollbackDentry mp rb
      if r1.1 = OpExistErr then (OpOk, r1.2)
      else if r1.1 ≠ OpOk then r1
      else
        let r2 := fsmCreateDentry r1.2 txDentry.dentry false
        if r2.1 ≠ OpOk then
          (r2.1, deleteTxRollbackDentry r2.2 txDenInfo.parentId txDenInfo.name txDenInfo.txId)
        else r2

/-- fsmTxDeleteDentry (part_000 lines 170 to 215): refuse a settled txId,
refuse a missing descriptor entry, stage an Add rollback record (replay
returns Ok), then delete the dentry when it matches the expected child;
a non-Ok status after staging drops the rollback record in the deferred
step.  Result is (status, removed dentry, state). -/
def fsmTxDeleteDentry (mp : MetaPartition) (txDentry : TxDentry) :
    Status × Option Dentry × MetaPartition :=
  if txInRMDone mp txDentry.txInfo.txId then (OpTxInfoNotExistErr, none, mp)
  else
    match findTxDenInfo txDentry.txInfo txDentry.dentry.parentId txDentry.dentry.name with
    | none => (OpTxDentryInfoNotExistErr, none, mp)
    | some txDenInfo =>
      let rb := NewTxRollbackDentry txDentry.dentry txDenInfo RbType.txAdd
      let r1 := addTxRollbackDentry mp rb
      if r1.1 = OpExistErr then (OpOk, none, r1.2)
      else if r1.1 ≠ OpOk then (r1.1, none, r1.2)
      else
        match dGet r1.2.dentryTree txDentry.dentry.parentId txDentry.dentry.name with
        | none =>
          (OpNotExistErr, none,
           deleteTxRollbackDentry r1.2 txDenInfo.parentId txDenInfo.name txDenInfo.txId)
        | some item =>
          if item.ino ≠ txDentry.dentry.ino then
            (OpNotExistErr, none,
             deleteTxRollbackDentry r1.2 txDenInfo.parentId txDenInfo.name txDenInfo.txId)
          else
            let tree1 := dDel r1.2.dentryTree txDentry.dentry.parentId txDentry.dentry.name
            (OpOk, some item, { r1.2 with dentryTree := tree1 })

/-! ## Delete dentry (C4) -/

/-- Response of the dentry handlers: a status and the affected dentry. -/
structure DentryResponse where
  status : Status
  msg : Option Dentry
  deriving DecidableEq, Repr

/-- Modelled from the spec: deleteVerSnapshot splices the version chain of
a dentry.  A live-layer request under versioning pushes the top layer
into the chain and tombstones the top (doMore true); a snapshot-targeted
request removes the matching layer (doMore false).  Result is
(denFound, doMore, clean, mutated dentry); the helper is outside src. -/
def deleteVerSnapshot (d : Dentry) (reqSeq pVerSeq : Nat) :
    Option Dentry × Bool × Bool × Dentry :=
  if reqSeq = 0 then
    (some d, true, d.dentryList.isEmpty,
     { d with deleted := true, seq := pVerSeq,
              dentryList := ⟨d.ino, d.typ, d.seq, false⟩ :: d.dentryList })
  else
    match d.dentryList.find? (fun v => v.seq ≤ reqSeq) with
    | some v =>
      (some { d with ino := v.ino, typ := v.typ, seq := v.seq, deleted := v.deleted },
       false, false,
       { d with dentryList := d.dentryList.filter (fun w => w.seq ≠ v.seq) })
    | none => (none, false, false, d)

/-- Location step of fsmDeleteDentry (part_000 lines 237 to 270): find and
possibly remove the entry, honouring checkInode and the partition
verSeq.  Result is (item, denFound, doMore, clean, new dentry tree). -/
def denDeleteLocate (mp : MetaPartition) (denParm : Dentry) (checkInode : Bool) :
    Option Dentry × Option Dentry × Bool × Bool × List Dentry :=
  if checkInode then
    match dGet mp.dentryTree denParm.parentId denParm.name with
    | none => (none, none, true, false, mp.dentryTree)
    | some den =>
      if den.ino ≠ denParm.ino then (none, none, true, false, mp.dentryTree)
      else if mp.verSeq = 0 then
        (some den, some den, true, false,
         dDel mp.dentryTree denParm.parentId denParm.name)
      else
        let r := deleteVerSnapshot den denParm.seq mp.verSeq
        (some r.2.2.2, r.1, r.2.1, r.2.2.1, dIns mp.dentryTree r.2.2.2)
  else
    match dGet mp.dentryTree denParm.parentId denParm.name with
    | none => (none, none, true, false, mp.dentryTree)
    | some den =>
      if mp.verSeq = 0 then
        (some den, some den, true, false,
         dDel mp.dentryTree denParm.parentId denParm.name)
      else
        let r := deleteVerSnapshot den denParm.seq mp.verSeq
        (some r.2.2.2, r.1, r.2.1, r.2.2.1, dIns mp.dentryTree r.2.2.2)

/-- fsmDeleteDentry (part_000 lines 218 to 306): seq checks, locate and
delete, the really-deleted cleanup, and the parent nlink and mtime update
on a top-layer delete. -/
def fsmDeleteDentry (mp : MetaPartition) (denParm : Dentry) (checkInode : Bool) :
    DentryResponse × MetaPartition :=
  if denParm.seq ≠ 0 ∧ mp.verSeq < denParm.seq then
    ({ status := OpNotExistErr, msg := none }, mp)
  else
    let loc := denDeleteLocate mp denParm checkInode
    let item := loc.1
    let denFound := loc.2.1
    let doMore := loc.2.2.1
    let clean := loc.2.2.2.1
    let tree1 := loc.2.2.2.2
    let tree2 :=
      match item with
      | some it =>
        if clean || (it.dentryList.length = 0 && it.isDeleted) then
          dDel tree1 it.parentId it.name
        else tree1
      | none => tree1
    if !doMore then
      ({ status := OpOk, msg := denFound }, { mp with dentryTree := tree2 })
    else
      match denFound with
      | none => ({ status := OpNotExistErr, msg := none }, { mp with dentryTree := tree2 })
      | some denF =>
        match iGet mp.inodeTree denParm.parentId with
        | none => ({ status := OpOk, msg := some denF }, { mp with dentryTree := tree2 })
        | some parIno =>
          if parIno.ShouldDelete then
            ({ status := OpOk, msg := some denF }, { mp with dentryTree := tree2 })
          else
            let p1 := if denParm.seq = 0 then parIno.DecNLink else parIno
            let p2 := p1.SetMtime mp.now
            ({ status := OpOk, msg := some denF },
             { mp with dentryTree := tree2, inodeTree := iIns mp.inodeTree p2 })

/-! ## Inode handlers (C5, C7, C8, C9, C10) -/

/-- Response of the inode handlers. -/
structure InodeResponse where
  status : Status
  msg : Option Inode
  deriving DecidableEq, Repr

/-- Request payload carried by the inode commands: the target id plus the
fields a given command reads (new size and mtime for truncate, proposed
extents for appends, read seq for unlink). -/
structure InodeReq where
  ino : Nat
  size : Nat
  modifyTime : Int
  verSeq : Nat
  extents : List ExtentKey
  deriving DecidableEq, Repr

/-- Modelled from the spec: CreateVer migrates the current inode contents
into the version chain before a mutation on a stale-seq inode (outside
src). -/
def Inode.CreateVer (i : Inode) (v : Nat) : Inode :=
  { i with verSeq := v, multiSnap := ⟨i.verSeq, i.extents⟩ :: i.multiSnap }

/-- Modelled from the spec: extent-key identity used by conflict
detection; two keys are the same when partition, extent and offset agree
(outside src). -/
def sameExtentKey (a b : ExtentKey) : Bool :=
  a.partitionId = b.partitionId && a.extentId = b.extentId &&
    a.extentOffset = b.extentOffset

/-- Overlap of the file ranges of two extent keys. -/
def overlapsB (a b : ExtentKey) : Bool :=
  decide (a.fileOffset < b.fileOffset + b.size) &&
    decide (b.fileOffset < a.fileOffset + a.size)

/-- Sorted insert of an extent key by file offset. -/
def ekIns (t : List ExtentKey) (x : ExtentKey) : List ExtentKey :=
  match t with
  | [] => [x]
  | y :: ys => if x.fileOffset ≤ y.fileOffset then x :: y :: ys else y :: ekIns ys x

/-- Modelled from the spec: AppendExtentWithCheck; when an existing extent
overlaps the proposed range with a different key the append is refused
with ConflictExtents and the list is untouched, otherwise the key is
spliced in and fully covered prior keys are returned for reclamation
(outside src).  Result is (status, new extents, delExtents). -/
def appendExtentWithCheck (exts : List ExtentKey) (ek : ExtentKey) :
    Status × List ExtentKey × List ExtentKey :=
  if exts.any (fun e => overlapsB e ek && !sameExtentKey e ek) then
    (OpConflictExtentsErr, exts, [])
  else
    let coveredP := fun e : ExtentKey =>
      decide (ek.fileOffset ≤ e.fileOffset) &&
        decide (e.fileOffset + e.size ≤ ek.fileOffset + ek.size)
    (OpOk, ekIns (exts.filter (fun e => !coveredP e)) ek, exts.filter coveredP)

/-- Modelled from the spec: storage.IsTinyExtent; tiny extents occupy the
reserved id range 1 to 64 (outside src). -/
def isTinyExtent (id : Nat) : Bool := 1 ≤ id && id ≤ 64

/-- Modelled from the spec: util.ExtentSize, 128 MiB (outside src). -/
def extentSize : Nat := 134217728

/-- fsmAppendExtentsWithCheck (part_000 lines 958 to 1037): on a live
inode take the first proposed key, run the checked append (or the split
path), and on ConflictExtents send the rejected key to the reclaim
channel in the conflict branch and once more in the shared conflict
cleanup.  Result is (status, state, reclaim events, quota ops). -/
def fsmAppendExtentsWithCheck (mp : MetaPartition) (req : InodeReq) (isSplit : Bool) :
    Status × MetaPartition × List (List ExtentKey) × List QuotaOp :=
  match iGet mp.inodeTree req.ino with
  | none => (OpNotExistErr, mp, [], [])
  | some ino2 =>
    if ino2.ShouldDelete then (OpNotExistErr, mp, [], [])
    else
      match req.extents with
      | [] => (OpOk, mp, [], [])
      | ek0 :: _ =>
        let q1 := [QuotaOp.addUidSpace ino2.uid ino2.ino [ek0]]
        if !isSplit then
          let r := appendExtentWithCheck ino2.extents ek0
          if r.1 = OpOk then
            let ino3a := { ino2 with extents := r.2.1 }
            let ino3b := { ino3a with size := max ino2.size (ek0.fileOffset + ek0.size) }
            let ino3 := { ino3b with mtime := req.modifyTime }
            (OpOk, { mp with inodeTree := iIns mp.inodeTree ino3 }, [r.2.2],
             q1 ++ [QuotaOp.updateUsedInfo ((ino3.size : Int) - (ino2.size : Int)) 0 ino2.ino])
          else
            let ek1 := if !isTinyExtent ek0.extentId && decide (extentSize ≤ ek0.extentOffset)
                       then { ek0 with isSplit := true } else ek0
            (r.1, mp, [[ek1], [ek1]],
             q1 ++ [QuotaOp.minusUidSpace ino2.uid ino2.ino [ek1],
                    QuotaOp.updateUsedInfo 0 0 ino2.ino])
        else
          let ino3 := { ino2 with multiSnap := ⟨req.verSeq, [ek0]⟩ :: ino2.multiSnap }
          (OpOk, { mp with inodeTree := iIns mp.inodeTree ino3 }, [[]],
           q1 ++ [QuotaOp.minusUidSpace ino2.uid ino2.ino [],
                  QuotaOp.updateUsedInfo 0 0 ino2.ino])

/-- fsmExtentsTruncate (part_000 lines 1064 to 1116): missing or
delete-marked target reports NotExist, a directory reports ArgMismatch
with no state change, otherwise the extents past the new size are dropped
(the truncation internals are modelled from the spec; outside src).
Result is (response, state, reclaim events, quota ops). -/
def fsmExtentsTruncate (mp : MetaPartition) (req : InodeReq) :
    InodeResponse × MetaPartition × List (List ExtentKey) × List QuotaOp :=
  match iGet mp.inodeTree req.ino with
  | none => ({ status := OpNotExistErr, msg := none }, mp, [], [])
  | some i =>
    if i.ShouldDelete then ({ status := OpNotExistErr, msg := none }, mp, [], [])
    else if IsDir i.typ then ({ status := OpArgMismatchErr, msg := none }, mp, [], [])
    else
      let i1 := if i.verSeq ≠ mp.verSeq then i.CreateVer mp.verSeq else i
      let dropP := fun ek : ExtentKey => decide (req.size < ek.fileOffset + ek.size)
      let dropped := i1.extents.filter dropP
      let i2a := { i1 with extents := i1.extents.filter (fun ek => !dropP ek) }
      let i2 := { i2a with size := req.size, mtime := req.modifyTime }
      let mp1 := { mp with inodeTree := iIns mp.inodeTree i2 }
      if dropped.isEmpty then ({ status := OpOk, msg := none }, mp1, [], [])
      else
        ({ status := OpOk, msg := none }, mp1, [dropped],
         [QuotaOp.updateUsedInfo ((req.size : Int) - (i.size : Int)) 0 i.ino,
          QuotaOp.minusUidSpace i.uid i.ino dropped])

/-- Modelled from the spec: inodeInTx consults the transaction rollback
ledger for the inode and reports TxConflict when a transaction holds it
(outside src). -/
def inodeInTx (mp : MetaPartition) (ino : Nat) : Status :=
  if mp.txRbInode.contains ino then OpTxConflictErr else OpOk

/-- Modelled from the spec: IsTempFile, a zero-linked regular file
(outside src). -/
def Inode.IsTempFile (i : Inode) : Bool := !IsDir i.typ && i.nlink = 0

/-- Modelled from the spec: IsEmptyDirAndNoSnapshot (outside src). -/
def Inode.IsEmptyDirAndNoSnapshot (i : Inode) : Bool :=
  IsDir i.typ && i.nlink ≤ 2 && i.multiSnap.isEmpty

/-- Modelled from the spec: isEmptyVerList (outside src). -/
def Inode.isEmptyVerList (i : Inode) : Bool := i.multiSnap.isEmpty

/-- Modelled from the spec: SetDeleteMark sets the delete-mark bit
(outside src). -/
def Inode.SetDeleteMark (i : Inode) : Inode := { i with deleteMark := true }

/-- fsmEvictInode (part_000 lines 1118 to 1147): missing target reports
NotExist; an already delete-marked inode is left alone; an empty
snapshot-free directory is delete-marked; a zero-linked regular file is
delete-marked and pushed to the free-list when its version chain is
empty. -/
def fsmEvictInode (mp : MetaPartition) (ino : Nat) : InodeResponse × MetaPartition :=
  match iGet mp.inodeTree ino with
  | none => ({ status := OpNotExistErr, msg := none }, mp)
  | some i =>
    if i.ShouldDelete then ({ status := OpOk, msg := none }, mp)
    else if IsDir i.typ then
      if i.IsEmptyDirAndNoSnapshot then
        ({ status := OpOk, msg := none },
         { mp with inodeTree := iIns mp.inodeTree i.SetDeleteMark })
      else ({ status := OpOk, msg := none }, mp)
    else if i.IsTempFile then
      let mp1 := { mp with inodeTree := iIns mp.inodeTree i.SetDeleteMark }
      if i.isEmptyVerList then
        ({ status := OpOk, msg := none }, { mp1 with freeList := ino :: mp1.freeList })
      else ({ status := OpOk, msg := none }, mp1)
    else ({ status := OpOk, msg := none }, mp)

/-- Modelled from the spec: fsmUnlinkInode, live-layer behavior only: a
missing or already delete-marked target reports NotExist, otherwise the
link count drops and a regular file reaching zero links is delete-marked,
stamped and pushed to the free-list with its extents sent for reclaim
(the version-aware body is outside src).  Result is
(response, state, reclaim events). -/
def fsmUnlinkInode (mp : MetaPartition) (req : InodeReq) :
    InodeResponse × MetaPartition × List (List ExtentKey) :=
  match iGet mp.inodeTree req.ino with
  | none => ({ status := OpNotExistErr, msg := none }, mp, [])
  | some inode =>
    if req.verSeq = 0 && inode.ShouldDelete then
      ({ status := OpNotExistErr, msg := none }, mp, [])
    else
      if !IsDir inode.typ && inode.DecNLink.nlink = 0 then
        let i2 := { inode.DecNLink with deleteMark := true, atime := mp.now }
        ({ status := OpOk, msg := some inode },
         { mp with inodeTree := iIns mp.inodeTree i2, freeList := req.ino :: mp.freeList },
         [i2.extents])
      else
        ({ status := OpOk, msg := some inode },
         { mp with inodeTree := iIns mp.inodeTree inode.DecNLink }, [])

/-- fsmUnlinkInodeBatch (part_000 lines 867 to 877): an inode held by a
transaction contributes its conflict status and the loop continues with
the rest of the batch. -/
def fsmUnlinkInodeBatch (mp : MetaPartition) : List InodeReq → List Status × MetaPartition
  | [] => ([], mp)
  | ino :: rest =>
    if inodeInTx mp ino.ino ≠ OpOk then
      let r := fsmUnlinkInodeBatch mp rest
      (inodeInTx mp ino.ino :: r.1, r.2)
    else
      let u := fsmUnlinkInode mp ino
      let r := fsmUnlinkInodeBatch u.2.1 rest
      (u.1.status :: r.1, r.2)

/-- fsmBatchEvictInode (part_000 lines 1149 to 1159): an inode held by a
transaction contributes its conflict status and the loop returns
immediately, leaving the rest of the batch unprocessed. -/
def fsmBatchEvictInode (mp : MetaPartition) : List InodeReq → List Status × MetaPartition
  | [] => ([], mp)
  | ino :: rest =>
    if inodeInTx mp ino.ino ≠ OpOk then ([inodeInTx mp ino.ino], mp)
    else
      let e := fsmEvictInode mp ino.ino
      let r := fsmBatchEvictInode e.2 rest
      (e.1.status :: r.1, r.2)

/-! ## Set attributes (C9) and internal delete (C10) -/

/-- Setattr request: target inode, new attribute values and the valid
bitmask selecting which of them apply. -/
structure SetattrRequest where
  inode : Nat
  mode : Nat
  uid : Nat
  atime : Int
  mtime : Int
  valid : Nat
  deriving DecidableEq, Repr

/-- Modelled from the spec: SetAttr applies the requested attribute
fields selected by the valid bitmask (outside src). -/
def Inode.SetAttr (i : Inode) (req : SetattrRequest) : Inode :=
  let i1 := if req.valid &&& 1 != 0 then { i with typ := req.mode } else i
  let i2 := if req.valid &&& 2 != 0 then { i1 with uid := req.uid } else i1
  let i3 := if req.valid &&& 8 != 0 then { i2 with mtime := req.mtime } else i2
  if req.valid &&& 16 != 0 then { i3 with atime := req.atime } else i3

/-- fsmSetAttr (part_000 lines 1173 to 1186): a missing or delete-marked
target returns a nil error with no state change; otherwise the attributes
are applied.  The Go handler never assigns its err result, so the first
component is always none. -/
def fsmSetAttr (mp : MetaPartition) (req : SetattrRequest) :
    Option String × MetaPartition :=
  match iGet mp.inodeTree req.inode with
  | none => (none, mp)
  | some ino =>
    if ino.ShouldDelete then (none, mp)
    else (none, { mp with inodeTree := iIns mp.inodeTree (ino.SetAttr req) })

/-- internalDeleteInode (part_000 lines 922 to 928): drop the inode from
the inode index, drop the id from the free-list, and drop its
extended-attribute entry. -/
def internalDeleteInode (mp : MetaPartition) (ino : Nat) : MetaPartition :=
  { mp with inodeTree := iDel mp.inodeTree ino,
            freeList := mp.freeList.filter (fun x => x ≠ ino),
            extendTree := eDel mp.extendTree ino }

/-! ## Readdir with limit (C3) -/

/-- Readdir-limit request (ReadDirLimitReq of the source). -/
structure ReadDirLimitReq where
  parentID : Nat
  marker : String
  limit : Nat
  verSeq : Nat
  verOpt : Nat
  deriving DecidableEq, Repr

/-- Child entry of a readdir response (proto.Dentry). -/
structure ChildDentry where
  name : String
  ino : Nat
  typ : Nat
  deriving DecidableEq, Repr

/-- Modelled from the spec: the FlagsVerDelDir bit of the version options
(outside src). -/
def FlagsVerDelDir : Nat := 2

/-- Modelled from the spec: getDentryFromVerList resolves a dentry through
its version chain at a read seq; seq 0 reads the live top layer (nothing
when tombstoned), a positive seq returns the newest layer whose seq is at
most the request seq and that is not delete-marked (outside src). -/
def getDentryFromVerList (d : Dentry) (verSeq : Nat) : Option Dentry :=
  if verSeq = 0 then
    if d.deleted then none else some d
  else
    match (({ ino := d.ino, typ := d.typ, seq := d.seq, deleted := d.deleted } :
        DentryVer) :: d.dentryList).find? (fun w => w.seq ≤ verSeq) with
    | none => none
    | some w =>
      if w.deleted then none
      else some { d with ino := w.ino, typ := w.typ, seq := w.seq, deleted := w.deleted }

/-- Modelled from the spec: a dentry is effective at a seq when the chain
resolves there (outside src). -/
def Dentry.isEffective (d : Dentry) (verSeq : Nat) : Bool :=
  (getDentryFromVerList d verSeq).isSome

/-- Range predicate of the readDirLimit scan: at or after
(parentID, marker) and strictly before (parentID + 1, empty). -/
def rdlInRange (req : ReadDirLimitReq) (d : Dentry) : Bool :=
  dkLe (req.parentID, req.marker) (dkey d) && dkLt (dkey d) (req.parentID + 1, "")

/-- Skip test of the readDirLimit visitor (part_000 lines 462 to 469): a
non-directory entry is skipped under a nonzero version option when the
del-dir flag is set or the entry is not effective at the read seq (the
two sequential skip returns of the source are joined disjunctively). -/
def rdlSkip (req : ReadDirLimitReq) (d : Dentry) : Bool :=
  !IsDir d.typ && req.verOpt > 0 &&
    (req.verOpt &&& FlagsVerDelDir != 0 || !(d.isEffective req.verSeq))

/-- Stop test of the readDirLimit visitor (part_000 lines 479 to 482):
stop once a nonzero limit is reached by the accumulated children. -/
def rdlStop (req : ReadDirLimitReq) (n : Nat) : Bool :=
  req.limit > 0 && req.limit ≤ n

/-- Visitor loop of readDirLimit (part_000 lines 461 to 484): skip entries
per the version options, resolve through the chain, append, and stop once
a nonzero limit is reached. -/
def rdlVisit (req : ReadDirLimitReq) : List Dentry → List ChildDentry → List ChildDentry
  | [], acc => acc
  | d :: rest, acc =>
    if rdlSkip req d then rdlVisit req rest acc
    else
      match getDentryFromVerList d req.verSeq with
      | none => rdlVisit req rest acc
      | some dd =>
        if rdlStop req (acc ++ [ChildDentry.mk dd.name dd.ino dd.typ]).length then
          acc ++ [ChildDentry.mk dd.name dd.ino dd.typ]
        else rdlVisit req rest (acc ++ [ChildDentry.mk dd.name dd.ino dd.typ])

/-- readDirLimit (part_000 lines 449 to 487): ascend the dentry tree over
the key range of the parent starting at the marker, visiting in key
order. -/
def readDirLimit (mp : MetaPartition) (req : ReadDirLimitReq) : List ChildDentry :=
  rdlVisit req (mp.dentryTree.filter (rdlInRange req)) []

/-! ## Lookup and insert lemmas for the sorted indexes -/

theorem dGet_key {t : List Dentry} {pid : Nat} {name : String} {d : Dentry}
    (h : dGet t pid name = some d) : d.parentId = pid ∧ d.name = name := by
  have h2 := List.find?_some h
  simp only [Bool.and_eq_true, decide_eq_true_eq] at h2
  exact h2

theorem iGet_key {t : List Inode} {k : Nat} {i : Inode}
    (h : iGet t k = some i) : i.ino = k := by
  have h2 := List.find?_some h
  simpa using h2

theorem dGet_dIns_self (t : List Dentry) (x : Dentry) :
    dGet (dIns t x) x.parentId x.name = some x := by
  induction t with
  | nil => simp [dIns, dGet]
  | cons y ys ih =>
    by_cases h1 : dkLt (dkey x) (dkey y) = true
    · simp only [dIns, if_pos h1]
      simp [dGet]
    · by_cases h2 : dkey x = dkey y
      · simp only [dIns, if_neg h1, if_pos h2]
        simp [dGet]
      · have hne : ¬(y.parentId = x.parentId ∧ y.name = x.name) := by
          rintro ⟨hp, hn⟩
          exact h2 (by simp [dkey, hp, hn])
        simp only [dIns, if_neg h1, if_neg h2]
        unfold dGet at ih ⊢
        rw [List.find?_cons_of_neg]
        · exact ih
        · simp [hne]

theorem iGet_iIns_self (t : List Inode) (x : Inode) :
    iGet (iIns t x) x.ino = some x := by
  induction t with
  | nil => simp [iIns, iGet]
  | cons y ys ih =>
    by_cases h1 : x.ino < y.ino
    · simp only [iIns, if_pos h1]
      simp [iGet]
    · by_cases h2 : x.ino = y.ino
      · simp only [iIns, if_neg h1, if_pos h2]
        simp [iGet]
      · have hne : ¬(y.ino = x.ino) := fun h => h2 h.symm
        simp only [iIns, if_neg h1, if_neg h2]
        unfold iGet at ih ⊢
        rw [List.find?_cons_of_neg]
        · exact ih
        · simp [hne]

theorem btGet_btIns_self (t : List BItem) (x : BItem) :
    btGet (btIns t x) x.key = some x := by
  induction t with
  | nil => simp [btIns, btGet]
  | cons y ys ih =>
    by_cases h1 : x.key < y.key
    · simp only [btIns, if_pos h1]
      simp [btGet]
    · by_cases h2 : x.key = y.key
      · simp only [btIns, if_neg h1, if_pos h2]
        simp [btGet]
      · have hne : ¬(y.key = x.key) := fun h => h2 h.symm
        simp only [btIns, if_neg h1, if_neg h2]
        unfold btGet at ih ⊢
        rw [List.find?_cons_of_neg]
        · exact ih
        · simp [hne]

/-! ## Claim C1 -/

/-- C1: for every createDentry command (not forced): a missing or
delete-marked parent reports NotExist; a non-directory parent reports
ArgMismatch; with no dentry at (parent, name) the dentry is inserted, the
parent nlink is incremented and its mtime bumped; an identical live
dentry reports Ok with no state change; a live dentry of a different
high-level type reports ArgMismatch; any other live dentry reports
Exists. -/
theorem fsmCreateDentry_spec (mp : MetaPartition) (dentry : Dentry) :
    (iGet mp.inodeTree dentry.parentId = none →
      fsmCreateDentry mp dentry false = (OpNotExistErr, mp)) ∧
    (∀ p, iGet mp.inodeTree dentry.parentId = some p → p.deleteMark = true →
      fsmCreateDentry mp dentry false = (OpNotExistErr, mp)) ∧
    (∀ p, iGet mp.inodeTree dentry.parentId = some p → p.deleteMark = false →
      IsDir p.typ = false →
      fsmCreateDentry mp dentry false = (OpArgMismatchErr, mp)) ∧
    (∀ p, iGet mp.inodeTree dentry.parentId = some p → p.deleteMark = false →
      IsDir p.typ = true →
      dGet mp.dentryTree dentry.parentId dentry.name = none →
      (fsmCreateDentry mp dentry false).1 = OpOk ∧
      dGet (fsmCreateDentry mp dentry false).2.dentryTree dentry.parentId dentry.name =
        some dentry ∧
      iGet (fsmCreateDentry mp dentry false).2.inodeTree dentry.parentId =
        some (Inode.SetMtime (Inode.IncNLink p) mp.now)) ∧
    (∀ p d, iGet mp.inodeTree dentry.parentId = some p → p.deleteMark = false →
      IsDir p.typ = true →
      dGet mp.dentryTree dentry.parentId dentry.name = some d → d.deleted = false →
      d.ino = dentry.ino → d.typ = dentry.typ →
      fsmCreateDentry mp dentry false = (OpOk, mp)) ∧
    (∀ p d, iGet mp.inodeTree dentry.parentId = some p → p.deleteMark = false →
      IsDir p.typ = true →
      dGet mp.dentryTree dentry.parentId dentry.name = some d → d.deleted = false →
      OsModeType dentry.typ ≠ OsModeType d.typ →
      fsmCreateDentry mp dentry false = (OpArgMismatchErr, mp)) ∧
    (∀ p d, iGet mp.inodeTree dentry.parentId = some p → p.deleteMark = false →
      IsDir p.typ = true →
      dGet mp.dentryTree dentry.parentId dentry.name = some d → d.deleted = false →
      OsModeType dentry.typ = OsModeType d.typ →
      ¬(dentry.parentId = d.parentId ∧ dentry.name = d.name ∧ dentry.ino = d.ino) →
      fsmCreateDentry mp dentry false = (OpExistErr, mp)) := by
  refine ⟨?_, ?_, ?_, ?_, ?_, ?_, ?_⟩
  · intro h
    simp [fsmCreateDentry, h]
  · intro p hp hdel
    simp [fsmCreateDentry, hp, Inode.ShouldDelete, hdel]
  · intro p hp hdel hdir
    simp [fsmCreateDentry, hp, Inode.ShouldDelete, hdel, hdir]
  · intro p hp hdel hdir hnone
    have hpi : p.ino = dentry.parentId := iGet_key hp
    have hrun : fsmCreateDentry mp dentry false =
        (OpOk, applyBump { mp with dentryTree := dIns mp.dentryTree dentry } (some p)) := by
      simp [fsmCreateDentry, denCreateIns, Inode.ShouldDelete, hp, hdel, hdir, hnone]
    rw [hrun]
    refine ⟨rfl, ?_, ?_⟩
    · simpa [applyBump] using dGet_dIns_self mp.dentryTree dentry
    · have h2 := iGet_iIns_self mp.inodeTree (Inode.SetMtime (Inode.IncNLink p) mp.now)
      have h3 : (Inode.SetMtime (Inode.IncNLink p) mp.now).ino = dentry.parentId := by
        simp [Inode.SetMtime, Inode.IncNLink, hpi]
      rw [h3] at h2
      simpa [applyBump] using h2
  · intro p d hp hdel hdir hd hlive hino htyp
    obtain ⟨hdp, hdn⟩ := dGet_key hd
    simp [fsmCreateDentry, denCreateIns, Inode.ShouldDelete, Dentry.isDeleted,
      hp, hdel, hdir, hd, hlive, hino, htyp, hdp, hdn]
  · intro p d hp hdel hdir hd hlive hty
    simp [fsmCreateDentry, denCreateIns, Inode.ShouldDelete, Dentry.isDeleted,
      hp, hdel, hdir, hd, hlive, hty]
  · intro p d hp hdel hdir hd hlive hty hnid
    have hrun : fsmCreateDentry mp dentry false = denCreateIns mp dentry (some p) := by
      simp [fsmCreateDentry, Inode.ShouldDelete, hp, hdel, hdir]
    rw [hrun]
    unfold denCreateIns
    rw [hd]
    simp only [Dentry.isDeleted, hlive, Bool.false_eq_true, if_false, hty, ne_eq,
      not_true_eq_false, if_neg hnid]

/-- Witness for C1: a fresh insert under directory parent 1 creates the
dentry and bumps the parent, and a missing parent reports NotExist. -/
theorem fsmCreateDentry_spec_witness :
    ((fsmCreateDentry
        ⟨[⟨1, ModeDir, 0, 0, 2, 0, 0, false, 0, [], []⟩], [], [], [], 0, [], [], [], 7⟩
        ⟨1, "f", 9, 420, 0, false, []⟩ false).1 = OpOk ∧
      dGet (fsmCreateDentry
        ⟨[⟨1, ModeDir, 0, 0, 2, 0, 0, false, 0, [], []⟩], [], [], [], 0, [], [], [], 7⟩
        ⟨1, "f", 9, 420, 0, false, []⟩ false).2.dentryTree 1 "f" =
        some ⟨1, "f", 9, 420, 0, false, []⟩ ∧
      iGet (fsmCreateDentry
        ⟨[⟨1, ModeDir, 0, 0, 2, 0, 0, false, 0, [], []⟩], [], [], [], 0, [], [], [], 7⟩
        ⟨1, "f", 9, 420, 0, false, []⟩ false).2.inodeTree 1 =
        some (Inode.SetMtime (Inode.IncNLink ⟨1, ModeDir, 0, 0, 2, 0, 0, false, 0, [], []⟩) 7)) ∧
    fsmCreateDentry ⟨[], [], [], [], 0, [], [], [], 7⟩ ⟨1, "f", 9, 420, 0, false, []⟩ false =
      (OpNotExistErr, ⟨[], [], [], [], 0, [], [], [], 7⟩) :=
  ⟨(fsmCreateDentry_spec
      ⟨[⟨1, ModeDir, 0, 0, 2, 0, 0, false, 0, [], []⟩], [], [], [], 0, [], [], [], 7⟩
      ⟨1, "f", 9, 420, 0, false, []⟩).2.2.2.1
      ⟨1, ModeDir, 0, 0, 2, 0, 0, false, 0, [], []⟩ (by decide) (by decide) (by decide)
      (by decide),
   (fsmCreateDentry_spec ⟨[], [], [], [], 0, [], [], [], 7⟩
      ⟨1, "f", 9, 420, 0, false, []⟩).1 (by decide)⟩

/-! ## Claim C6 -/

/-- C6: for every ordered-index state and every key, ReplaceOrInsert with
replace set to false returns the existing item with ok false and leaves
the index unchanged when the key is present, and inserts the value with
ok true when the key is absent. -/
theorem replaceOrInsert_contract (t : List BItem) (x : BItem) :
    (∀ it, btGet t x.key = some it →
      ReplaceOrInsert t x false = (some it, false, t)) ∧
    (btGet t x.key = none →
      ReplaceOrInsert t x false = (none, true, btIns t x) ∧
      btGet (btIns t x) x.key = some x) := by
  constructor
  · intro it h
    simp [ReplaceOrInsert, h]
  · intro h
    refine ⟨by simp [ReplaceOrInsert, h], btGet_btIns_self t x⟩

/-- Witness for C6: the contract evaluated on a one-item index, once with
the key present and once with it absent. -/
theorem replaceOrInsert_contract_witness :
    ReplaceOrInsert [⟨1, 10⟩] ⟨1, 99⟩ false = (some ⟨1, 10⟩, false, [⟨1, 10⟩]) ∧
    (ReplaceOrInsert [⟨1, 10⟩] ⟨2, 5⟩ false = (none, true, btIns [⟨1, 10⟩] ⟨2, 5⟩) ∧
      btGet (btIns [⟨1, 10⟩] ⟨2, 5⟩) 2 = some ⟨2, 5⟩) :=
  ⟨(replaceOrInsert_contract [⟨1, 10⟩] ⟨1, 99⟩).1 ⟨1, 10⟩ (by decide),
   (replaceOrInsert_contract [⟨1, 10⟩] ⟨2, 5⟩).2 (by decide)⟩

/-! ## Delete-frame lemmas for the sorted indexes -/

theorem iGet_iDel_self (t : List Inode) (k : Nat) (h : (t.map Inode.ino).Nodup) :
    iGet (iDel t k) k = none := by
  induction t with
  | nil => simp [iDel, iGet]
  | cons y ys ih =>
    simp only [List.map_cons, List.nodup_cons, List.mem_map] at h
    by_cases hy : y.ino = k
    · simp only [iDel, if_pos hy]
      rw [iGet, List.find?_eq_none]
      intro a ha
      simp only [decide_eq_true_eq]
      intro hak
      exact h.1 ⟨a, ha, by rw [hak, hy]⟩
    · simp only [iDel, if_neg hy]
      rw [iGet, List.find?_cons_of_neg]
      · exact ih h.2
      · simp [hy]

theorem iGet_iDel_other (t : List Inode) (k j : Nat) (hne : j ≠ k) :
    iGet (iDel t k) j = iGet t j := by
  induction t with
  | nil => simp [iDel]
  | cons y ys ih =>
    by_cases hy : y.ino = k
    · have hyj : ¬(y.ino = j) := by rw [hy]; exact fun h => hne h.symm
      simp only [iDel, if_pos hy]
      unfold iGet
      rw [List.find?_cons_of_neg]
      simp [hyj]
    · simp only [iDel, if_neg hy]
      unfold iGet at ih ⊢
      by_cases hj : y.ino = j
      · rw [List.find?_cons_of_pos, List.find?_cons_of_pos] <;> simp [hj]
      · rw [List.find?_cons_of_neg, List.find?_cons_of_neg]
        · exact ih
        · simp [hj]
        · simp [hj]

theorem eGet_eDel_self (t : List Extend) (k : Nat) (h : (t.map Extend.inode).Nodup) :
    eGet (eDel t k) k = none := by
  induction t with
  | nil => simp [eDel, eGet]
  | cons y ys ih =>
    simp only [List.map_cons, List.nodup_cons, List.mem_map] at h
    by_cases hy : y.inode = k
    · simp only [eDel, if_pos hy]
      rw [eGet, List.find?_eq_none]
      intro a ha
      simp only [decide_eq_true_eq]
      intro hak
      exact h.1 ⟨a, ha, by rw [hak, hy]⟩
    · simp only [eDel, if_neg hy]
      rw [eGet, List.find?_cons_of_neg]
      · exact ih h.2
      · simp [hy]

theorem eGet_eDel_other (t : List Extend) (k j : Nat) (hne : j ≠ k) :
    eGet (eDel t k) j = eGet t j := by
  induction t with
  | nil => simp [eDel]
  | cons y ys ih =>
    by_cases hy : y.inode = k
    · have hyj : ¬(y.inode = j) := by rw [hy]; exact fun h => hne h.symm
      simp only [eDel, if_pos hy]
      unfold eGet
      rw [List.find?_cons_of_neg]
      simp [hyj]
    · simp only [eDel, if_neg hy]
      unfold eGet at ih ⊢
      by_cases hj : y.inode = j
      · rw [List.find?_cons_of_pos, List.find?_cons_of_pos] <;> simp [hj]
      · rw [List.find?_cons_of_neg, List.find?_cons_of_neg]
        · exact ih
        · simp [hj]
        · simp [hj]

/-! ## Claim C9 -/

/-- C9: a setAttr command whose target inode is absent from the inode
index or delete-marked returns success (a nil error, not NotExist) and
changes no partition state. -/
theorem fsmSetAttr_absent_spec (mp : MetaPartition) (req : SetattrRequest) :
    (iGet mp.inodeTree req.inode = none → fsmSetAttr mp req = (none, mp)) ∧
    (∀ i, iGet mp.inodeTree req.inode = some i → i.deleteMark = true →
      fsmSetAttr mp req = (none, mp)) := by
  constructor
  · intro h
    simp [fsmSetAttr, h]
  · intro i h hdel
    simp [fsmSetAttr, h, Inode.ShouldDelete, hdel]

/-- Witness for C9: setAttr against an empty partition and against a
delete-marked inode, both returning a nil error with the state intact. -/
theorem fsmSetAttr_absent_spec_witness :
    fsmSetAttr ⟨[], [], [], [], 0, [], [], [], 7⟩ ⟨5, 420, 0, 0, 0, 1⟩ =
      (none, ⟨[], [], [], [], 0, [], [], [], 7⟩) ∧
    fsmSetAttr ⟨[⟨5, 420, 0, 0, 0, 0, 0, true, 0, [], []⟩], [], [], [], 0, [], [], [], 7⟩
        ⟨5, 420, 0, 0, 0, 1⟩ =
      (none, ⟨[⟨5, 420, 0, 0, 0, 0, 0, true, 0, [], []⟩], [], [], [], 0, [], [], [], 7⟩) :=
  ⟨(fsmSetAttr_absent_spec ⟨[], [], [], [], 0, [], [], [], 7⟩ ⟨5, 420, 0, 0, 0, 1⟩).1
      (by decide),
   (fsmSetAttr_absent_spec
      ⟨[⟨5, 420, 0, 0, 0, 0, 0, true, 0, [], []⟩], [], [], [], 0, [], [], [], 7⟩
      ⟨5, 420, 0, 0, 0, 1⟩).2 ⟨5, 420, 0, 0, 0, 0, 0, true, 0, [], []⟩ (by decide) rfl⟩

/-! ## Claim C7 -/

/-- C7: a truncate whose target inode exists, is not delete-marked and is
a directory returns ArgMismatch with no state change, no reclaim event
and no quota movement. -/
theorem fsmExtentsTruncate_dir_spec (mp : MetaPartition) (req : InodeReq) :
    ∀ i, iGet mp.inodeTree req.ino = some i → i.deleteMark = false →
      IsDir i.typ = true →
      fsmExtentsTruncate mp req =
        ({ status := OpArgMismatchErr, msg := none }, mp, [], []) := by
  intro i h hdel hdir
  simp [fsmExtentsTruncate, h, Inode.ShouldDelete, hdel, hdir]

/-- Witness for C7: truncating directory inode 1 (mode ModeDir, live)
rejects with ArgMismatch and leaves the partition, the event list and the
quota list untouched. -/
theorem fsmExtentsTruncate_dir_spec_witness :
    fsmExtentsTruncate
        ⟨[⟨1, ModeDir, 0, 0, 2, 0, 0, false, 0, [], []⟩], [], [], [], 0, [], [], [], 7⟩
        ⟨1, 0, 9, 0, []⟩ =
      ({ status := OpArgMismatchErr, msg := none },
       ⟨[⟨1, ModeDir, 0, 0, 2, 0, 0, false, 0, [], []⟩], [], [], [], 0, [], [], [], 7⟩,
       [], []) :=
  fsmExtentsTruncate_dir_spec
    ⟨[⟨1, ModeDir, 0, 0, 2, 0, 0, false, 0, [], []⟩], [], [], [], 0, [], [], [], 7⟩
    ⟨1, 0, 9, 0, []⟩ ⟨1, ModeDir, 0, 0, 2, 0, 0, false, 0, [], []⟩
    (by decide) rfl (by decide)

/-! ## Claim C10 -/

/-- C10: internalDelete of inode id i removes i from the inode index, the
free-list and the extend index, and leaves inode and extend entries keyed
by other ids, other free-list members and the whole dentry index
unchanged. -/
theorem internalDeleteInode_spec (mp : MetaPartition) (i : Nat) :
    ((mp.inodeTree.map Inode.ino).Nodup →
      iGet (internalDeleteInode mp i).inodeTree i = none) ∧
    ((mp.extendTree.map Extend.inode).Nodup →
      eGet (internalDeleteInode mp i).extendTree i = none) ∧
    i ∉ (internalDeleteInode mp i).freeList ∧
    (∀ j, j ≠ i → iGet (internalDeleteInode mp i).inodeTree j = iGet mp.inodeTree j) ∧
    (∀ j, j ≠ i → eGet (internalDeleteInode mp i).extendTree j = eGet mp.extendTree j) ∧
    (∀ j, j ≠ i → ((j ∈ (internalDeleteInode mp i).freeList) ↔ j ∈ mp.freeList)) ∧
    (internalDeleteInode mp i).dentryTree = mp.dentryTree := by
  refine ⟨?_, ?_, ?_, ?_, ?_, ?_, rfl⟩
  · intro h
    exact iGet_iDel_self mp.inodeTree i h
  · intro h
    exact eGet_eDel_self mp.extendTree i h
  · simp [internalDeleteInode, List.mem_filter]
  · intro j hj
    exact iGet_iDel_other mp.inodeTree i j hj
  · intro j hj
    exact eGet_eDel_other mp.extendTree i j hj
  · intro j hj
    simp [internalDeleteInode, List.mem_filter, hj]

/-- Witness for C10: deleting inode 5 from a partition holding inodes 4
and 5, xattrs for 4 and 5, free-list members 4 and 5 and one dentry. -/
theorem internalDeleteInode_spec_witness :
    (iGet (internalDeleteInode
        ⟨[⟨4, 420, 0, 0, 1, 0, 0, false, 0, [], []⟩, ⟨5, 420, 0, 0, 0, 0, 0, true, 0, [], []⟩],
         [⟨1, "a", 4, 420, 0, false, []⟩], [⟨4, []⟩, ⟨5, [("k", "v")]⟩], [4, 5], 0, [], [], [], 7⟩
        5).inodeTree 5 = none) ∧
    (eGet (internalDeleteInode
        ⟨[⟨4, 420, 0, 0, 1, 0, 0, false, 0, [], []⟩, ⟨5, 420, 0, 0, 0, 0, 0, true, 0, [], []⟩],
         [⟨1, "a", 4, 420, 0, false, []⟩], [⟨4, []⟩, ⟨5, [("k", "v")]⟩], [4, 5], 0, [], [], [], 7⟩
        5).extendTree 5 = none) ∧
    5 ∉ (internalDeleteInode
        ⟨[⟨4, 420, 0, 0, 1, 0, 0, false, 0, [], []⟩, ⟨5, 420, 0, 0, 0, 0, 0, true, 0, [], []⟩],
         [⟨1, "a", 4, 420, 0, false, []⟩], [⟨4, []⟩, ⟨5, [("k", "v")]⟩], [4, 5], 0, [], [], [], 7⟩
        5).freeList ∧
    (∀ j, j ≠ 5 → iGet (internalDeleteInode
        ⟨[⟨4, 420, 0, 0, 1, 0, 0, false, 0, [], []⟩, ⟨5, 420, 0, 0, 0, 0, 0, true, 0, [], []⟩],
         [⟨1, "a", 4, 420, 0, false, []⟩], [⟨4, []⟩, ⟨5, [("k", "v")]⟩], [4, 5], 0, [], [], [], 7⟩
        5).inodeTree j = iGet
        [⟨4, 420, 0, 0, 1, 0, 0, false, 0, [], []⟩, ⟨5, 420, 0, 0, 0, 0, 0, true, 0, [], []⟩] j) ∧
    (∀ j, j ≠ 5 → eGet (internalDeleteInode
        ⟨[⟨4, 420, 0, 0, 1, 0, 0, false, 0, [], []⟩, ⟨5, 420, 0, 0, 0, 0, 0, true, 0, [], []⟩],
         [⟨1, "a", 4, 420, 0, false, []⟩], [⟨4, []⟩, ⟨5, [("k", "v")]⟩], [4, 5], 0, [], [], [], 7⟩
        5).extendTree j = eGet [⟨4, []⟩, ⟨5, [("k", "v")]⟩] j) ∧
    (∀ j, j ≠ 5 → ((j ∈ (internalDeleteInode
        ⟨[⟨4, 420, 0, 0, 1, 0, 0, false, 0, [], []⟩, ⟨5, 420, 0, 0, 0, 0, 0, true, 0, [], []⟩],
         [⟨1, "a", 4, 420, 0, false, []⟩], [⟨4, []⟩, ⟨5, [("k", "v")]⟩], [4, 5], 0, [], [], [], 7⟩
        5).freeList) ↔ j ∈ [4, 5])) ∧
    (internalDeleteInode
        ⟨[⟨4, 420, 0, 0, 1, 0, 0, false, 0, [], []⟩, ⟨5, 420, 0, 0, 0, 0, 0, true, 0, [], []⟩],
         [⟨1, "a", 4, 420, 0, false, []⟩], [⟨4, []⟩, ⟨5, [("k", "v")]⟩], [4, 5], 0, [], [], [], 7⟩
        5).dentryTree = [⟨1, "a", 4, 420, 0, false, []⟩] := by
  have h := internalDeleteInode_spec
    ⟨[⟨4, 420, 0, 0, 1, 0, 0, false, 0, [], []⟩, ⟨5, 420, 0, 0, 0, 0, 0, true, 0, [], []⟩],
     [⟨1, "a", 4, 420, 0, false, []⟩], [⟨4, []⟩, ⟨5, [("k", "v")]⟩], [4, 5], 0, [], [], [], 7⟩ 5
  exact ⟨h.1 (by decide), h.2.1 (by decide), h.2.2.1, h.2.2.2.1, h.2.2.2.2.1,
    h.2.2.2.2.2.1, h.2.2.2.2.2.2⟩

/-! ## Frame lemmas for the transaction ledger -/

theorem applyBump_txFrame (mp : MetaPartition) (parOpt : Option Inode) :
    (applyBump mp parOpt).txRbDentry = mp.txRbDentry := by
  cases parOpt <;> simp [applyBump]

theorem denCreateIns_txFrame (mp : MetaPartition) (dentry : Dentry)
    (parOpt : Option Inode) :
    (denCreateIns mp dentry parOpt).2.txRbDentry = mp.txRbDentry := by
  unfold denCreateIns
  split
  · cases parOpt <;> simp [applyBump]
  · split_ifs <;> cases parOpt <;> simp [applyBump]

theorem fsmCreateDentry_txFrame (mp : MetaPartition) (dentry : Dentry) (f : Bool) :
    (fsmCreateDentry mp dentry f).2.txRbDentry = mp.txRbDentry := by
  cases f with
  | true =>
    simpa [fsmCreateDentry] using denCreateIns_txFrame mp dentry none
  | false =>
    unfold fsmCreateDentry
    cases hp : iGet mp.inodeTree dentry.parentId with
    | none => simp
    | some p =>
      by_cases h1 : p.ShouldDelete = true
      · simp [h1]
      · by_cases h2 : IsDir p.typ = true
        · simpa [h1, h2] using denCreateIns_txFrame mp dentry (some p)
        · simp [h1, h2]

theorem find_after_deleteTxRb (mp : MetaPartition) (pid : Nat) (name txId : String) :
    (deleteTxRollbackDentry mp pid name txId).txRbDentry.find?
      (fun r => r.parentId = pid && r.name = name && r.txId = txId) = none := by
  rw [List.find?_eq_none]
  intro a ha
  have h2 := (List.mem_filter.mp ha).2
  simp only [Bool.not_eq_eq_eq_not, Bool.not_true] at h2
  simp [h2]

theorem deferTail_noleak (r2 : Status × MetaPartition) (pid : Nat) (name txId : String)
    (hst : (if r2.1 ≠ OpOk then (r2.1, deleteTxRollbackDentry r2.2 pid name txId)
            else r2).1 ≠ OpOk) :
    (if r2.1 ≠ OpOk then (r2.1, deleteTxRollbackDentry r2.2 pid name txId)
     else r2).2.txRbDentry.find?
      (fun x => x.parentId = pid && x.name = name && x.txId = txId) = none := by
  by_cases hok : r2.1 = OpOk
  · rw [if_neg (by simp [hok])] at hst
    exact absurd hok hst
  · rw [if_pos hok]
    exact find_after_deleteTxRb _ pid name txId

/-! ## Claim C2 -/

/-- C2: for the transactional prepare handlers (tx create dentry, tx
delete dentry): a settled txId yields TxInfoNotExist with no state
change; a rollback record already staged for the same entity and txId
yields Ok without re-applying the forward mutation; and when the forward
mutation returns non-Ok after the rollback record was staged, the
deferred step removes the record so no rollback record leaks. -/
theorem txPrepare_spec (mp : MetaPartition) (td : TxDentry) :
    (txInRMDone mp td.txInfo.txId = true →
      fsmTxCreateDentry mp td = (OpTxInfoNotExistErr, mp) ∧
      fsmTxDeleteDentry mp td = (OpTxInfoNotExistErr, none, mp)) ∧
    (∀ info r, txInRMDone mp td.txInfo.txId = false →
      findTxDenInfo td.txInfo td.dentry.parentId td.dentry.name = some info →
      mp.txRbDentry.find?
        (fun x => x.parentId = info.parentId && x.name = info.name) = some r →
      r.txId = info.txId →
      fsmTxCreateDentry mp td = (OpOk, mp) ∧
      fsmTxDeleteDentry mp td = (OpOk, none, mp)) ∧
    (∀ info, txInRMDone mp td.txInfo.txId = false →
      findTxDenInfo td.txInfo td.dentry.parentId td.dentry.name = some info →
      mp.txRbDentry.find?
        (fun x => x.parentId = info.parentId && x.name = info.name) = none →
      ((fsmTxCreateDentry mp td).1 ≠ OpOk →
        (fsmTxCreateDentry mp td).2.txRbDentry.find?
          (fun x => x.parentId = info.parentId && x.name = info.name &&
            x.txId = info.txId) = none) ∧
      ((fsmTxDeleteDentry mp td).1 ≠ OpOk →
        (fsmTxDeleteDentry mp td).2.2.txRbDentry.find?
          (fun x => x.parentId = info.parentId && x.name = info.name &&
            x.txId = info.txId) = none)) := by
  refine ⟨?_, ?_, ?_⟩
  · intro h
    constructor
    · simp [fsmTxCreateDentry, h]
    · simp [fsmTxDeleteDentry, h]
  · intro info r hdone hinfo hledger hrtx
    constructor
    · simp [fsmTxCreateDentry, hdone, hinfo, addTxRollbackDentry,
        NewTxRollbackDentry, hledger, hrtx]
    · simp [fsmTxDeleteDentry, hdone, hinfo, addTxRollbackDentry,
        NewTxRollbackDentry, hledger, hrtx]
  · intro info hdone hinfo hledger
    constructor
    · intro hst
      simp only [fsmTxCreateDentry, hdone, Bool.false_eq_true, if_false, hinfo,
        addTxRollbackDentry, NewTxRollbackDentry, hledger] at hst ⊢
      simp only [reduceCtorEq, if_false, ne_eq, not_false_eq_true, if_true,
        not_true_eq_false] at hst ⊢
      exact deferTail_noleak _ info.parentId info.name info.txId hst
    · intro hst
      simp only [fsmTxDeleteDentry, hdone, Bool.false_eq_true, if_false, hinfo,
        addTxRollbackDentry, NewTxRollbackDentry, hledger] at hst ⊢
      simp only [reduceCtorEq, if_false, ne_eq, not_false_eq_true, if_true,
        not_true_eq_false] at hst ⊢
      cases hd : dGet mp.dentryTree td.dentry.parentId td.dentry.name with
      | none =>
        simp only [hd] at hst ⊢
        exact find_after_deleteTxRb _ info.parentId info.name info.txId
      | some item =>
        by_cases hi : item.ino = td.dentry.ino
        · simp [hd, hi] at hst
        · simp only [hd, hi, ne_eq, not_false_eq_true, if_true] at hst ⊢
          exact find_after_deleteTxRb _ info.parentId info.name info.txId

/-- Witness for C2: the three behaviors at concrete states: a settled
txId, a staged rollback record for the same entity and txId, and a
forward mutation that fails (missing parent and missing dentry) after
staging. -/
theorem txPrepare_spec_witness :
    (fsmTxCreateDentry ⟨[], [], [], [], 0, ["t1"], [], [], 7⟩
        ⟨⟨"t1", [⟨1, "x", "t1"⟩]⟩, ⟨1, "x", 42, 420, 0, false, []⟩⟩ =
      (OpTxInfoNotExistErr, ⟨[], [], [], [], 0, ["t1"], [], [], 7⟩) ∧
     fsmTxDeleteDentry ⟨[], [], [], [], 0, ["t1"], [], [], 7⟩
        ⟨⟨"t1", [⟨1, "x", "t1"⟩]⟩, ⟨1, "x", 42, 420, 0, false, []⟩⟩ =
      (OpTxInfoNotExistErr, none, ⟨[], [], [], [], 0, ["t1"], [], [], 7⟩)) ∧
    (fsmTxCreateDentry
        ⟨[], [], [], [], 0, [],
         [⟨1, "x", "t1", RbType.txDelete, ⟨1, "x", 42, 420, 0, false, []⟩⟩], [], 7⟩
        ⟨⟨"t1", [⟨1, "x", "t1"⟩]⟩, ⟨1, "x", 42, 420, 0, false, []⟩⟩ =
      (OpOk,
       ⟨[], [], [], [], 0, [],
        [⟨1, "x", "t1", RbType.txDelete, ⟨1, "x", 42, 420, 0, false, []⟩⟩], [], 7⟩) ∧
     fsmTxDeleteDentry
        ⟨[], [], [], [], 0, [],
         [⟨1, "x", "t1", RbType.txDelete, ⟨1, "x", 42, 420, 0, false, []⟩⟩], [], 7⟩
        ⟨⟨"t1", [⟨1, "x", "t1"⟩]⟩, ⟨1, "x", 42, 420, 0, false, []⟩⟩ =
      (OpOk, none,
       ⟨[], [], [], [], 0, [],
        [⟨1, "x", "t1", RbType.txDelete, ⟨1, "x", 42, 420, 0, false, []⟩⟩], [], 7⟩)) ∧
    ((fsmTxCreateDentry ⟨[], [], [], [], 0, [], [], [], 7⟩
        ⟨⟨"t1", [⟨1, "x", "t1"⟩]⟩, ⟨1, "x", 42, 420, 0, false, []⟩⟩).2.txRbDentry.find?
        (fun x => x.parentId = 1 && x.name = "x" && x.txId = "t1") = none ∧
     (fsmTxDeleteDentry ⟨[], [], [], [], 0, [], [], [], 7⟩
        ⟨⟨"t1", [⟨1, "x", "t1"⟩]⟩, ⟨1, "x", 42, 420, 0, false, []⟩⟩).2.2.txRbDentry.find?
        (fun x => x.parentId = 1 && x.name = "x" && x.txId = "t1") = none) := by
  refine ⟨?_, ?_, ?_, ?_⟩
  · exact (txPrepare_spec ⟨[], [], [], [], 0, ["t1"], [], [], 7⟩
      ⟨⟨"t1", [⟨1, "x", "t1"⟩]⟩, ⟨1, "x", 42, 420, 0, false, []⟩⟩).1 (by decide)
  · exact (txPrepare_spec
      ⟨[], [], [], [], 0, [],
       [⟨1, "x", "t1", RbType.txDelete, ⟨1, "x", 42, 420, 0, false, []⟩⟩], [], 7⟩
      ⟨⟨"t1", [⟨1, "x", "t1"⟩]⟩, ⟨1, "x", 42, 420, 0, false, []⟩⟩).2.1
      ⟨1, "x", "t1"⟩ ⟨1, "x", "t1", RbType.txDelete, ⟨1, "x", 42, 420, 0, false, []⟩⟩
      (by decide) (by decide) (by decide) (by decide)
  · exact ((txPrepare_spec ⟨[], [], [], [], 0, [], [], [], 7⟩
      ⟨⟨"t1", [⟨1, "x", "t1"⟩]⟩, ⟨1, "x", 42, 420, 0, false, []⟩⟩).2.2
      ⟨1, "x", "t1"⟩ (by decide) (by decide) (by decide)).1 (by decide)
  · exact ((txPrepare_spec ⟨[], [], [], [], 0, [], [], [], 7⟩
      ⟨⟨"t1", [⟨1, "x", "t1"⟩]⟩, ⟨1, "x", 42, 420, 0, false, []⟩⟩).2.2
      ⟨1, "x", "t1"⟩ (by decide) (by decide) (by decide)).2 (by decide)

/-! ## Claim C4 -/

theorem dGet_dDel_self (t : List Dentry) (pid : Nat) (name : String)
    (h : (t.map dkey).Nodup) : dGet (dDel t pid name) pid name = none := by
  induction t with
  | nil => simp [dDel, dGet]
  | cons y ys ih =>
    simp only [List.map_cons, List.nodup_cons, List.mem_map] at h
    by_cases hy : y.parentId = pid ∧ y.name = name
    · simp only [dDel, if_pos hy]
      rw [dGet, List.find?_eq_none]
      intro a ha
      simp only [Bool.and_eq_true, decide_eq_true_eq, not_and]
      intro hap han
      exact absurd ⟨a, ha, by simp [dkey, hap, han, hy.1, hy.2]⟩ h.1
    · simp only [dDel, if_neg hy]
      rw [dGet, List.find?_cons_of_neg]
      · exact ih h.2
      · simpa using hy

/-- C4: delete dentry with seq 0 and an expected child (checkInode): when
the entry is absent or its child differs the handler reports NotExist and
deletes nothing; on a successful top-layer delete without snapshots
(partition verSeq 0) the entry leaves the dentry index, the parent nlink
drops, the parent mtime is bumped and the removed dentry is returned in
the response message. -/
theorem fsmDeleteDentry_spec (mp : MetaPartition) (denParm : Dentry) :
    denParm.seq = 0 →
    ((dGet mp.dentryTree denParm.parentId denParm.name = none →
      fsmDeleteDentry mp denParm true = ({ status := OpNotExistErr, msg := none }, mp)) ∧
     (∀ d, dGet mp.dentryTree denParm.parentId denParm.name = some d →
      d.ino ≠ denParm.ino →
      fsmDeleteDentry mp denParm true = ({ status := OpNotExistErr, msg := none }, mp)) ∧
     (∀ d p, mp.verSeq = 0 → (mp.dentryTree.map dkey).Nodup →
      dGet mp.dentryTree denParm.parentId denParm.name = some d →
      d.ino = denParm.ino → d.deleted = false →
      iGet mp.inodeTree denParm.parentId = some p → p.deleteMark = false →
      (fsmDeleteDentry mp denParm true).1 = { status := OpOk, msg := some d } ∧
      dGet (fsmDeleteDentry mp denParm true).2.dentryTree denParm.parentId
        denParm.name = none ∧
      iGet (fsmDeleteDentry mp denParm true).2.inodeTree denParm.parentId =
        some (Inode.SetMtime (Inode.DecNLink p) mp.now))) := by
  intro hseq
  refine ⟨?_, ?_, ?_⟩
  · intro hd
    simp [fsmDeleteDentry, denDeleteLocate, hseq, hd]
  · intro d hd hne
    simp [fsmDeleteDentry, denDeleteLocate, hseq, hd, hne]
  · intro d p hver hnd hd hino hlive hp hpdel
    have hpi : p.ino = denParm.parentId := iGet_key hp
    obtain ⟨hdp, hdn⟩ := dGet_key hd
    have hrun : fsmDeleteDentry mp denParm true =
        ({ status := OpOk, msg := some d },
         { mp with dentryTree := dDel mp.dentryTree denParm.parentId denParm.name,
                   inodeTree :=
                     iIns mp.inodeTree (Inode.SetMtime (Inode.DecNLink p) mp.now) }) := by
      simp [fsmDeleteDentry, denDeleteLocate, hseq, hver, hd, hino, hlive,
        Dentry.isDeleted, hp, Inode.ShouldDelete, hpdel]
    rw [hrun]
    refine ⟨rfl, ?_, ?_⟩
    · exact dGet_dDel_self mp.dentryTree denParm.parentId denParm.name hnd
    · have h2 := iGet_iIns_self mp.inodeTree (Inode.SetMtime (Inode.DecNLink p) mp.now)
      have h3 : (Inode.SetMtime (Inode.DecNLink p) mp.now).ino = denParm.parentId := by
        simp [Inode.SetMtime, Inode.DecNLink, hpi]
      rw [h3] at h2
      exact h2

/-- Witness for C4: a mismatching expected child reports NotExist with
the state intact, and a matching delete removes the entry, decrements the
parent nlink and stamps the mtime. -/
theorem fsmDeleteDentry_spec_witness :
    (fsmDeleteDentry
        ⟨[⟨1, ModeDir, 0, 0, 3, 0, 0, false, 0, [], []⟩],
         [⟨1, "f", 9, 420, 0, false, []⟩], [], [], 0, [], [], [], 7⟩
        ⟨1, "f", 8, 420, 0, false, []⟩ true =
      ({ status := OpNotExistErr, msg := none },
       ⟨[⟨1, ModeDir, 0, 0, 3, 0, 0, false, 0, [], []⟩],
        [⟨1, "f", 9, 420, 0, false, []⟩], [], [], 0, [], [], [], 7⟩)) ∧
    ((fsmDeleteDentry
        ⟨[⟨1, ModeDir, 0, 0, 3, 0, 0, false, 0, [], []⟩],
         [⟨1, "f", 9, 420, 0, false, []⟩], [], [], 0, [], [], [], 7⟩
        ⟨1, "f", 9, 420, 0, false, []⟩ true).1 =
      { status := OpOk, msg := some ⟨1, "f", 9, 420, 0, false, []⟩ } ∧
     dGet (fsmDeleteDentry
        ⟨[⟨1, ModeDir, 0, 0, 3, 0, 0, false, 0, [], []⟩],
         [⟨1, "f", 9, 420, 0, false, []⟩], [], [], 0, [], [], [], 7⟩
        ⟨1, "f", 9, 420, 0, false, []⟩ true).2.dentryTree 1 "f" = none ∧
     iGet (fsmDeleteDentry
        ⟨[⟨1, ModeDir, 0, 0, 3, 0, 0, false, 0, [], []⟩],
         [⟨1, "f", 9, 420, 0, false, []⟩], [], [], 0, [], [], [], 7⟩
        ⟨1, "f", 9, 420, 0, false, []⟩ true).2.inodeTree 1 =
      some (Inode.SetMtime
        (Inode.DecNLink ⟨1, ModeDir, 0, 0, 3, 0, 0, false, 0, [], []⟩) 7)) :=
  ⟨((fsmDeleteDentry_spec
      ⟨[⟨1, ModeDir, 0, 0, 3, 0, 0, false, 0, [], []⟩],
       [⟨1, "f", 9, 420, 0, false, []⟩], [], [], 0, [], [], [], 7⟩
      ⟨1, "f", 8, 420, 0, false, []⟩) rfl).2.1 ⟨1, "f", 9, 420, 0, false, []⟩
      (by decide) (by decide),
   ((fsmDeleteDentry_spec
      ⟨[⟨1, ModeDir, 0, 0, 3, 0, 0, false, 0, [], []⟩],
       [⟨1, "f", 9, 420, 0, false, []⟩], [], [], 0, [], [], [], 7⟩
      ⟨1, "f", 9, 420, 0, false, []⟩) rfl).2.2 ⟨1, "f", 9, 420, 0, false, []⟩
      ⟨1, ModeDir, 0, 0, 3, 0, 0, false, 0, [], []⟩ rfl (by decide) (by decide) rfl rfl
      (by decide) rfl⟩

/-! ## Claim C8 -/

theorem fsmEvictInode_txFrame (mp : MetaPartition) (ino : Nat) :
    (fsmEvictInode mp ino).2.txRbInode = mp.txRbInode := by
  unfold fsmEvictInode
  split
  · simp
  · split_ifs <;> simp

theorem fsmUnlinkInode_txFrame (mp : MetaPartition) (req : InodeReq) :
    (fsmUnlinkInode mp req).2.1.txRbInode = mp.txRbInode := by
  unfold fsmUnlinkInode
  split
  · simp
  · split_ifs <;> simp

theorem inodeInTx_congr {mp mp0 : MetaPartition} (h : mp.txRbInode = mp0.txRbInode)
    (i : Nat) : inodeInTx mp i = inodeInTx mp0 i := by
  simp [inodeInTx, h]

theorem evictBatch_cons (mp : MetaPartition) (y : InodeReq) (ys : List InodeReq) :
    fsmBatchEvictInode mp (y :: ys) =
      if inodeInTx mp y.ino ≠ OpOk then ([inodeInTx mp y.ino], mp)
      else
        ((fsmEvictInode mp y.ino).1.status ::
           (fsmBatchEvictInode (fsmEvictInode mp y.ino).2 ys).1,
         (fsmBatchEvictInode (fsmEvictInode mp y.ino).2 ys).2) := by
  conv_lhs => unfold fsmBatchEvictInode

theorem unlinkBatch_cons (mp : MetaPartition) (y : InodeReq) (ys : List InodeReq) :
    fsmUnlinkInodeBatch mp (y :: ys) =
      if inodeInTx mp y.ino ≠ OpOk then
        (inodeInTx mp y.ino :: (fsmUnlinkInodeBatch mp ys).1,
         (fsmUnlinkInodeBatch mp ys).2)
      else
        ((fsmUnlinkInode mp y).1.status ::
           (fsmUnlinkInodeBatch (fsmUnlinkInode mp y).2.1 ys).1,
         (fsmUnlinkInodeBatch (fsmUnlinkInode mp y).2.1 ys).2) := by
  conv_lhs => unfold fsmUnlinkInodeBatch

theorem evictBatch_allOk (mp0 : MetaPartition) (pre : List InodeReq)
    (h : ∀ y ∈ pre, inodeInTx mp0 y.ino = OpOk) :
    ∀ mp : MetaPartition, mp.txRbInode = mp0.txRbInode →
      (fsmBatchEvictInode mp pre).1.length = pre.length ∧
      (fsmBatchEvictInode mp pre).2.txRbInode = mp0.txRbInode := by
  induction pre with
  | nil =>
    intro mp heq
    simpa [fsmBatchEvictInode] using heq
  | cons y ys ih =>
    intro mp heq
    have hy : inodeInTx mp y.ino = OpOk := by
      rw [inodeInTx_congr heq]
      exact h y (List.mem_cons_self y ys)
    have ih2 := ih (fun z hz => h z (List.mem_cons_of_mem y hz)) (fsmEvictInode mp y.ino).2
      (by rw [fsmEvictInode_txFrame]; exact heq)
    rw [evictBatch_cons]
    simp [hy, ih2.1, ih2.2]

theorem evictBatch_stop (mp0 : MetaPartition) (pre : List InodeReq) (x : InodeReq)
    (post : List InodeReq)
    (h : ∀ y ∈ pre, inodeInTx mp0 y.ino = OpOk)
    (hx : inodeInTx mp0 x.ino = OpTxConflictErr) :
    ∀ mp : MetaPartition, mp.txRbInode = mp0.txRbInode →
      fsmBatchEvictInode mp (pre ++ x :: post) =
        ((fsmBatchEvictInode mp pre).1 ++ [OpTxConflictErr],
         (fsmBatchEvictInode mp pre).2) := by
  induction pre with
  | nil =>
    intro mp heq
    have hx2 : inodeInTx mp x.ino = OpTxConflictErr := by
      rw [inodeInTx_congr heq]
      exact hx
    simp [fsmBatchEvictInode, hx2]
  | cons y ys ih =>
    intro mp heq
    have hy : inodeInTx mp y.ino = OpOk := by
      rw [inodeInTx_congr heq]
      exact h y (List.mem_cons_self y ys)
    have ih2 := ih (fun z hz => h z (List.mem_cons_of_mem y hz)) (fsmEvictInode mp y.ino).2
      (by rw [fsmEvictInode_txFrame]; exact heq)
    simp only [List.cons_append]
    rw [evictBatch_cons, evictBatch_cons mp y ys]
    simp [hy, ih2]

theorem unlinkBatch_len (mp : MetaPartition) (l : List InodeReq) :
    (fsmUnlinkInodeBatch mp l).1.length = l.length := by
  induction l generalizing mp with
  | nil => simp [fsmUnlinkInodeBatch]
  | cons y ys ih =>
    rw [unlinkBatch_cons]
    by_cases hy : inodeInTx mp y.ino = OpOk
    · simp [hy, ih]
    · simp [hy, ih]

theorem unlinkBatch_skip (mp0 : MetaPartition) (pre : List InodeReq) (x : InodeReq)
    (post : List InodeReq)
    (h : ∀ y ∈ pre, inodeInTx mp0 y.ino = OpOk)
    (hx : inodeInTx mp0 x.ino = OpTxConflictErr) :
    ∀ mp : MetaPartition, mp.txRbInode = mp0.txRbInode →
      fsmUnlinkInodeBatch mp (pre ++ x :: post) =
        ((fsmUnlinkInodeBatch mp pre).1 ++ OpTxConflictErr ::
           (fsmUnlinkInodeBatch (fsmUnlinkInodeBatch mp pre).2 post).1,
         (fsmUnlinkInodeBatch (fsmUnlinkInodeBatch mp pre).2 post).2) := by
  induction pre with
  | nil =>
    intro mp heq
    have hx2 : inodeInTx mp x.ino = OpTxConflictErr := by
      rw [inodeInTx_congr heq]
      exact hx
    simp [fsmUnlinkInodeBatch, hx2]
  | cons y ys ih =>
    intro mp heq
    have hy : inodeInTx mp y.ino = OpOk := by
      rw [inodeInTx_congr heq]
      exact h y (List.mem_cons_self y ys)
    have ih2 := ih (fun z hz => h z (List.mem_cons_of_mem y hz)) (fsmUnlinkInode mp y).2.1
      (by rw [fsmUnlinkInode_txFrame]; exact heq)
    simp only [List.cons_append]
    rw [unlinkBatch_cons, unlinkBatch_cons mp y ys]
    simp [hy, ih2]

/-- C8: batchEvict stops at the first inode held by a transaction: the
response holds one entry per preceding inode plus the conflict status and
every later inode is left unevicted; batchUnlink instead records the
conflict status and continues with the rest of the batch, responding for
every inode. -/
theorem batchEvict_vs_batchUnlink_spec (mp : MetaPartition) (pre : List InodeReq)
    (x : InodeReq) (post : List InodeReq)
    (h : ∀ y ∈ pre, inodeInTx mp y.ino = OpOk)
    (hx : inodeInTx mp x.ino = OpTxConflictErr) :
    fsmBatchEvictInode mp (pre ++ x :: post) =
      ((fsmBatchEvictInode mp pre).1 ++ [OpTxConflictErr],
       (fsmBatchEvictInode mp pre).2) ∧
    (fsmBatchEvictInode mp pre).1.length = pre.length ∧
    (fsmBatchEvictInode mp (pre ++ x :: post)).1.length = pre.length + 1 ∧
    fsmUnlinkInodeBatch mp (pre ++ x :: post) =
      ((fsmUnlinkInodeBatch mp pre).1 ++ OpTxConflictErr ::
         (fsmUnlinkInodeBatch (fsmUnlinkInodeBatch mp pre).2 post).1,
       (fsmUnlinkInodeBatch (fsmUnlinkInodeBatch mp pre).2 post).2) ∧
    (fsmUnlinkInodeBatch mp (pre ++ x :: post)).1.length =
      pre.length + 1 + post.length := by
  have he := evictBatch_stop mp pre x post h hx mp rfl
  have hl := (evictBatch_allOk mp pre h mp rfl).1
  have hu := unlinkBatch_skip mp pre x post h hx mp rfl
  refine ⟨he, hl, ?_, hu, ?_⟩
  · rw [he]
    simp [hl]
  · rw [unlinkBatch_len]
    simp only [List.length_append, List.length_cons]
    omega

/-- Witness for C8: a three-inode batch whose middle inode 5 is held by a
transaction; evict answers two entries and stops, unlink answers three. -/
theorem batchEvict_vs_batchUnlink_spec_witness :
    fsmBatchEvictInode ⟨[], [], [], [], 0, [], [], [5], 7⟩
        ([⟨4, 0, 0, 0, []⟩] ++ ⟨5, 0, 0, 0, []⟩ :: [⟨6, 0, 0, 0, []⟩]) =
      ((fsmBatchEvictInode ⟨[], [], [], [], 0, [], [], [5], 7⟩ [⟨4, 0, 0, 0, []⟩]).1 ++
         [OpTxConflictErr],
       (fsmBatchEvictInode ⟨[], [], [], [], 0, [], [], [5], 7⟩ [⟨4, 0, 0, 0, []⟩]).2) ∧
    (fsmBatchEvictInode ⟨[], [], [], [], 0, [], [], [5], 7⟩
        [⟨4, 0, 0, 0, []⟩]).1.length = 1 ∧
    (fsmBatchEvictInode ⟨[], [], [], [], 0, [], [], [5], 7⟩
        ([⟨4, 0, 0, 0, []⟩] ++ ⟨5, 0, 0, 0, []⟩ :: [⟨6, 0, 0, 0, []⟩])).1.length = 1 + 1 ∧
    fsmUnlinkInodeBatch ⟨[], [], [], [], 0, [], [], [5], 7⟩
        ([⟨4, 0, 0, 0, []⟩] ++ ⟨5, 0, 0, 0, []⟩ :: [⟨6, 0, 0, 0, []⟩]) =
      ((fsmUnlinkInodeBatch ⟨[], [], [], [], 0, [], [], [5], 7⟩ [⟨4, 0, 0, 0, []⟩]).1 ++
         OpTxConflictErr ::
           (fsmUnlinkInodeBatch
             (fsmUnlinkInodeBatch ⟨[], [], [], [], 0, [], [], [5], 7⟩
               [⟨4, 0, 0, 0, []⟩]).2 [⟨6, 0, 0, 0, []⟩]).1,
       (fsmUnlinkInodeBatch
         (fsmUnlinkInodeBatch ⟨[], [], [], [], 0, [], [], [5], 7⟩
           [⟨4, 0, 0, 0, []⟩]).2 [⟨6, 0, 0, 0, []⟩]).2) ∧
    (fsmUnlinkInodeBatch ⟨[], [], [], [], 0, [], [], [5], 7⟩
        ([⟨4, 0, 0, 0, []⟩] ++ ⟨5, 0, 0, 0, []⟩ :: [⟨6, 0, 0, 0, []⟩])).1.length =
      1 + 1 + 1 :=
  batchEvict_vs_batchUnlink_spec ⟨[], [], [], [], 0, [], [], [5], 7⟩
    [⟨4, 0, 0, 0, []⟩] ⟨5, 0, 0, 0, []⟩ [⟨6, 0, 0, 0, []⟩]
    (by decide) (by decide)

/-! ## Claim C5 -/

/-- C5 counterexample: at a concrete conflicting checked append (inode 7
holds extent (0,4096) under key ekA, the request proposes (0,4096) under
a different key ekB) the handler returns ConflictExtents with the state
unchanged, but the rejected key is sent to the reclaim channel twice:
once in the conflict branch of the unsplit path (part_000 line 1009) and
once more in the shared conflict cleanup (line 1024).  The claimed single
reclaim event is false. -/
theorem appendCheck_conflict_cex :
    (fsmAppendExtentsWithCheck
        ⟨[⟨7, 420, 0, 4096, 1, 0, 0, false, 0, [⟨1, 100, 0, 0, 4096, 0, false⟩], []⟩],
         [], [], [], 0, [], [], [], 7⟩
        ⟨7, 0, 9, 0, [⟨1, 200, 0, 0, 4096, 0, false⟩]⟩ false).1 = OpConflictExtentsErr ∧
    (fsmAppendExtentsWithCheck
        ⟨[⟨7, 420, 0, 4096, 1, 0, 0, false, 0, [⟨1, 100, 0, 0, 4096, 0, false⟩], []⟩],
         [], [], [], 0, [], [], [], 7⟩
        ⟨7, 0, 9, 0, [⟨1, 200, 0, 0, 4096, 0, false⟩]⟩ false).2.1 =
      ⟨[⟨7, 420, 0, 4096, 1, 0, 0, false, 0, [⟨1, 100, 0, 0, 4096, 0, false⟩], []⟩],
       [], [], [], 0, [], [], [], 7⟩ ∧
    (fsmAppendExtentsWithCheck
        ⟨[⟨7, 420, 0, 4096, 1, 0, 0, false, 0, [⟨1, 100, 0, 0, 4096, 0, false⟩], []⟩],
         [], [], [], 0, [], [], [], 7⟩
        ⟨7, 0, 9, 0, [⟨1, 200, 0, 0, 4096, 0, false⟩]⟩ false).2.2.1 =
      [[⟨1, 200, 0, 0, 4096, 0, false⟩], [⟨1, 200, 0, 0, 4096, 0, false⟩]] ∧
    ¬((fsmAppendExtentsWithCheck
        ⟨[⟨7, 420, 0, 4096, 1, 0, 0, false, 0, [⟨1, 100, 0, 0, 4096, 0, false⟩], []⟩],
         [], [], [], 0, [], [], [], 7⟩
        ⟨7, 0, 9, 0, [⟨1, 200, 0, 0, 4096, 0, false⟩]⟩ false).2.2.1.length = 1) := by
  decide

/-- C5 amended: on a checked append (non-split path) against an existing
live inode where some extent overlaps the proposed range under a
different key, the handler returns ConflictExtents, the partition state
(hence the extent list) is unchanged, and exactly two reclaim events are
sent, each carrying the rejected new key (marked split when it is a
large-offset normal extent). -/
theorem appendCheck_conflict_spec (mp : MetaPartition) (req : InodeReq) (ek0 : ExtentKey)
    (rest : List ExtentKey) :
    ∀ i, iGet mp.inodeTree req.ino = some i → i.deleteMark = false →
      IsDir i.typ = false →
      req.extents = ek0 :: rest →
      i.extents.any (fun e => overlapsB e ek0 && !sameExtentKey e ek0) = true →
      (fsmAppendExtentsWithCheck mp req false).1 = OpConflictExtentsErr ∧
      (fsmAppendExtentsWithCheck mp req false).2.1 = mp ∧
      (fsmAppendExtentsWithCheck mp req false).2.2.1 =
        [[if !isTinyExtent ek0.extentId && decide (extentSize ≤ ek0.extentOffset)
          then { ek0 with isSplit := true } else ek0],
         [if !isTinyExtent ek0.extentId && decide (extentSize ≤ ek0.extentOffset)
          then { ek0 with isSplit := true } else ek0]] := by
  intro i hi hdel hdir hext hany
  simp [fsmAppendExtentsWithCheck, hi, Inode.ShouldDelete, hdel, hext,
    appendExtentWithCheck, hany]

/-- Witness for C5 amended: the same concrete conflicting append sends
exactly the two events carrying the rejected key ekB. -/
theorem appendCheck_conflict_spec_witness :
    (fsmAppendExtentsWithCheck
        ⟨[⟨7, 420, 0, 4096, 1, 0, 0, false, 0, [⟨1, 100, 0, 0, 4096, 0, false⟩], []⟩],
         [], [], [], 0, [], [], [], 7⟩
        ⟨7, 0, 9, 0, [⟨1, 200, 0, 0, 4096, 0, false⟩]⟩ false).1 = OpConflictExtentsErr ∧
    (fsmAppendExtentsWithCheck
        ⟨[⟨7, 420, 0, 4096, 1, 0, 0, false, 0, [⟨1, 100, 0, 0, 4096, 0, false⟩], []⟩],
         [], [], [], 0, [], [], [], 7⟩
        ⟨7, 0, 9, 0, [⟨1, 200, 0, 0, 4096, 0, false⟩]⟩ false).2.1 =
      ⟨[⟨7, 420, 0, 4096, 1, 0, 0, false, 0, [⟨1, 100, 0, 0, 4096, 0, false⟩], []⟩],
       [], [], [], 0, [], [], [], 7⟩ ∧
    (fsmAppendExtentsWithCheck
        ⟨[⟨7, 420, 0, 4096, 1, 0, 0, false, 0, [⟨1, 100, 0, 0, 4096, 0, false⟩], []⟩],
         [], [], [], 0, [], [], [], 7⟩
        ⟨7, 0, 9, 0, [⟨1, 200, 0, 0, 4096, 0, false⟩]⟩ false).2.2.1 =
      [[if !isTinyExtent (ExtentKey.extentId ⟨1, 200, 0, 0, 4096, 0, false⟩) &&
            decide (extentSize ≤ ExtentKey.extentOffset ⟨1, 200, 0, 0, 4096, 0, false⟩)
        then { (⟨1, 200, 0, 0, 4096, 0, false⟩ : ExtentKey) with isSplit := true }
        else ⟨1, 200, 0, 0, 4096, 0, false⟩],
       [if !isTinyExtent (ExtentKey.extentId ⟨1, 200, 0, 0, 4096, 0, false⟩) &&
            decide (extentSize ≤ ExtentKey.extentOffset ⟨1, 200, 0, 0, 4096, 0, false⟩)
        then { (⟨1, 200, 0, 0, 4096, 0, false⟩ : ExtentKey) with isSplit := true }
        else ⟨1, 200, 0, 0, 4096, 0, false⟩]] :=
  appendCheck_conflict_spec
    ⟨[⟨7, 420, 0, 4096, 1, 0, 0, false, 0, [⟨1, 100, 0, 0, 4096, 0, false⟩], []⟩],
     [], [], [], 0, [], [], [], 7⟩
    ⟨7, 0, 9, 0, [⟨1, 200, 0, 0, 4096, 0, false⟩]⟩ ⟨1, 200, 0, 0, 4096, 0, false⟩ []
    ⟨7, 420, 0, 4096, 1, 0, 0, false, 0, [⟨1, 100, 0, 0, 4096, 0, false⟩], []⟩
    (by decide) rfl (by decide) rfl (by decide)

/-! ## Claim C3: readdir paging lemmas -/

theorem clLt_nil (l : List Char) : clLt l [] = false := by
  cases l <;> rfl

theorem strLt_empty (s : String) : strLt s "" = false := by
  unfold strLt
  rw [show ("" : String).data = [] from rfl, clLt_nil]

theorem getDentryFromVerList_name (d : Dentry) (vs : Nat) (dd : Dentry)
    (h : getDentryFromVerList d vs = some dd) : dd.name = d.name := by
  unfold getDentryFromVerList at h
  by_cases hv : vs = 0
  · rw [if_pos hv] at h
    by_cases hdel : d.deleted = true
    · rw [if_pos hdel] at h
      cases h
    · rw [if_neg hdel] at h
      cases h
      rfl
  · rw [if_neg hv] at h
    split at h
    · cases h
    · split_ifs at h
      cases h
      rfl

theorem rdlSkip_of_verOpt0 (req : ReadDirLimitReq) (hv : req.verOpt = 0)
    (d : Dentry) : rdlSkip req d = false := by
  simp [rdlSkip, hv]

theorem rdlInRange_iff (req : ReadDirLimitReq) (d : Dentry) :
    rdlInRange req d = true ↔
      (d.parentId = req.parentID ∧ strLe req.marker d.name = true) := by
  unfold rdlInRange dkLe dkLt dkey strLe
  simp only [Bool.and_eq_true, Bool.or_eq_true, decide_eq_true_eq, beq_iff_eq,
    Prod.mk.injEq, strLt_empty, Bool.and_false, or_false, Bool.false_eq_true]
  constructor
  · rintro ⟨h1, h2⟩
    rcases h1 with (h1 | ⟨h1a, h1b⟩) | ⟨h1a, h1b⟩
    · omega
    · exact ⟨h1a.symm, Or.inl h1b⟩
    · exact ⟨h1a.symm, Or.inr (by rw [h1b])⟩
  · rintro ⟨h1, h2⟩
    refine ⟨?_, by omega⟩
    rcases h2 with h2 | h2
    · exact Or.inl (Or.inr ⟨h1.symm, h2⟩)
    · exact Or.inr ⟨h1.symm, by rw [h2]⟩

theorem rdlVisit_mem (req : ReadDirLimitReq) :
    ∀ (l : List Dentry) (acc : List ChildDentry) (c : ChildDentry),
      c ∈ rdlVisit req l acc →
      c ∈ acc ∨ ∃ d ∈ l, ∃ dd, getDentryFromVerList d req.verSeq = some dd ∧
        c = ChildDentry.mk dd.name dd.ino dd.typ := by
  intro l
  induction l with
  | nil =>
    intro acc c hc
    simp only [rdlVisit] at hc
    exact Or.inl hc
  | cons d rest ih =>
    intro acc c hc
    simp only [rdlVisit] at hc
    split at hc
    · rcases ih acc c hc with h | ⟨d', hd', dd, hr2, hceq⟩
      · exact Or.inl h
      · exact Or.inr ⟨d', List.mem_cons_of_mem d hd', dd, hr2, hceq⟩
    · split at hc
      · rcases ih acc c hc with h | ⟨d', hd', dd, hr2, hceq⟩
        · exact Or.inl h
        · exact Or.inr ⟨d', List.mem_cons_of_mem d hd', dd, hr2, hceq⟩
      · rename_i dd hr
        split at hc
        · rcases List.mem_append.mp hc with h | h
          · exact Or.inl h
          · exact Or.inr ⟨d, List.mem_cons_self d rest, dd, hr, by simpa using h⟩
        · rcases ih _ c hc with h | ⟨d', hd', dd', hr2, hceq⟩
          · rcases List.mem_append.mp h with h2 | h2
            · exact Or.inl h2
            · exact Or.inr ⟨d, List.mem_cons_self d rest, dd, hr, by simpa using h2⟩
          · exact Or.inr ⟨d', List.mem_cons_of_mem d hd', dd', hr2, hceq⟩

theorem rdlVisit_sorted (req : ReadDirLimitReq) :
    ∀ (l : List Dentry) (acc : List ChildDentry),
      List.Pairwise (fun a b : Dentry => strLt a.name b.name = true) l →
      List.Pairwise (fun a b : ChildDentry => strLt a.name b.name = true) acc →
      (∀ a ∈ acc, ∀ d ∈ l, strLt a.name d.name = true) →
      List.Pairwise (fun a b : ChildDentry => strLt a.name b.name = true)
        (rdlVisit req l acc) := by
  intro l
  induction l with
  | nil =>
    intro acc _ hacc _
    simpa only [rdlVisit] using hacc
  | cons d rest ih =>
    intro acc hl hacc hcross
    have hl1 : ∀ d' ∈ rest, strLt d.name d'.name = true := (List.pairwise_cons.mp hl).1
    have hl2 : List.Pairwise (fun a b : Dentry => strLt a.name b.name = true) rest :=
      (List.pairwise_cons.mp hl).2
    simp only [rdlVisit]
    split
    · exact ih acc hl2 hacc (fun a ha d' hd' => hcross a ha d' (List.mem_cons_of_mem d hd'))
    · split
      · exact ih acc hl2 hacc (fun a ha d' hd' => hcross a ha d' (List.mem_cons_of_mem d hd'))
      · rename_i dd hr
        have hnm : dd.name = d.name := getDentryFromVerList_name d req.verSeq dd hr
        have hacc2 : List.Pairwise (fun a b : ChildDentry => strLt a.name b.name = true)
            (acc ++ [ChildDentry.mk dd.name dd.ino dd.typ]) := by
          rw [List.pairwise_append]
          refine ⟨hacc, List.pairwise_singleton _ _, ?_⟩
          intro a ha b hb
          have hb2 : b = ChildDentry.mk dd.name dd.ino dd.typ := by simpa using hb
          rw [hb2]
          show strLt a.name dd.name = true
          rw [hnm]
          exact hcross a ha d (List.mem_cons_self d rest)
        split
        · exact hacc2
        · refine ih _ hl2 hacc2 ?_
          intro a ha d' hd'
          rcases List.mem_append.mp ha with h2 | h2
          · exact hcross a h2 d' (List.mem_cons_of_mem d hd')
          · have ha2 : a = ChildDentry.mk dd.name dd.ino dd.typ := by simpa using h2
            rw [ha2]
            show strLt dd.name d'.name = true
            rw [hnm]
            exact hl1 d' hd'

theorem rdlVisit_length (req : ReadDirLimitReq) :
    ∀ (l : List Dentry) (acc : List ChildDentry),
      0 < req.limit → acc.length < req.limit →
      (rdlVisit req l acc).length ≤ req.limit := by
  intro l
  induction l with
  | nil =>
    intro acc _ hlen
    simp only [rdlVisit]
    omega
  | cons d rest ih =>
    intro acc hpos hlen
    simp only [rdlVisit]
    split
    · exact ih acc hpos hlen
    · split
      · exact ih acc hpos hlen
      · split
        · simp only [List.length_append, List.length_cons, List.length_nil]
          omega
        · rename_i hstop
          refine ih _ hpos ?_
          simp only [rdlStop, Bool.and_eq_true, decide_eq_true_eq, not_and] at hstop
          simp only [List.length_append, List.length_cons, List.length_nil] at hstop ⊢
          omega

theorem rdlVisit_acc_sub (req : ReadDirLimitReq) :
    ∀ (l : List Dentry) (acc : List ChildDentry) (c : ChildDentry),
      c ∈ acc → c ∈ rdlVisit req l acc := by
  intro l
  induction l with
  | nil =>
    intro acc c hc
    simpa only [rdlVisit] using hc
  | cons d rest ih =>
    intro acc c hc
    simp only [rdlVisit]
    split
    · exact ih acc c hc
    · split
      · exact ih acc c hc
      · split
        · exact List.mem_append.mpr (Or.inl hc)
        · exact ih _ c (List.mem_append.mpr (Or.inl hc))

theorem rdlVisit_complete (req : ReadDirLimitReq) (hv : req.verOpt = 0)
    (hlim : req.limit = 0) :
    ∀ (l : List Dentry) (acc : List ChildDentry) (d dd : Dentry),
      d ∈ l → getDentryFromVerList d req.verSeq = some dd →
      ChildDentry.mk dd.name dd.ino dd.typ ∈ rdlVisit req l acc := by
  intro l
  induction l with
  | nil =>
    intro acc d dd hd _
    exact absurd hd (List.not_mem_nil d)
  | cons e rest ih =>
    intro acc d dd hd hr
    have hstop : ∀ n, rdlStop req n = false := by
      intro n
      simp [rdlStop, hlim]
    simp only [rdlVisit, rdlSkip_of_verOpt0 req hv, Bool.false_eq_true, if_false]
    rcases List.mem_cons.mp hd with rfl | hd2
    · simp only [hr, hstop, Bool.false_eq_true, if_false]
      exact rdlVisit_acc_sub req rest _ _ (List.mem_append.mpr (Or.inr (by simp)))
    · cases hr2 : getDentryFromVerList e req.verSeq with
      | none =>
        simp only [hr2]
        exact ih acc d dd hd2 hr
      | some ee =>
        simp only [hr2, hstop, Bool.false_eq_true, if_false]
        exact ih _ d dd hd2 hr

/-- C3 counterexample: with marker "a" and a live dentry named exactly
"a" under parent 1, readDirLimit returns that child, so the returned
names are not all strictly after the marker as claimed: the range scan
starts at the marker inclusively (greater or equal). -/
theorem readDirLimit_marker_cex :
    readDirLimit ⟨[], [⟨1, "a", 2, 420, 0, false, []⟩], [], [], 0, [], [], [], 7⟩
        ⟨1, "a", 0, 0, 0⟩ = [⟨"a", 2, 420⟩] ∧
    ¬(∀ c ∈ readDirLimit ⟨[], [⟨1, "a", 2, 420, 0, false, []⟩], [], [], 0, [], [], [], 7⟩
        ⟨1, "a", 0, 0, 0⟩, strLt "a" c.name = true) := by
  decide

/-- C3 amended: for a readDirLimit request with verOpt zero on a sorted
dentry index, the returned children are dentries of parentId effective at
the read seq whose names are at or after the marker (greater or equal;
not strictly after), in strictly ascending name order; a positive limit
caps the count and limit zero returns every such child. -/
theorem readDirLimit_paging_spec (mp : MetaPartition) (req : ReadDirLimitReq)
    (hs : List.Pairwise (fun a b => dkLt (dkey a) (dkey b) = true) mp.dentryTree)
    (hv : req.verOpt = 0) :
    (∀ c ∈ readDirLimit mp req, ∃ d ∈ mp.dentryTree,
      d.parentId = req.parentID ∧ strLe req.marker d.name = true ∧
      ∃ dd, getDentryFromVerList d req.verSeq = some dd ∧
        c = ChildDentry.mk dd.name dd.ino dd.typ) ∧
    List.Pairwise (fun a b : ChildDentry => strLt a.name b.name = true)
      (readDirLimit mp req) ∧
    (0 < req.limit → (readDirLimit mp req).length ≤ req.limit) ∧
    (req.limit = 0 → ∀ d ∈ mp.dentryTree, d.parentId = req.parentID →
      strLe req.marker d.name = true →
      ∀ dd, getDentryFromVerList d req.verSeq = some dd →
        ChildDentry.mk dd.name dd.ino dd.typ ∈ readDirLimit mp req) := by
  have h1 : List.Pairwise (fun a b => dkLt (dkey a) (dkey b) = true)
      (mp.dentryTree.filter (rdlInRange req)) := hs.filter _
  have hsort : List.Pairwise (fun a b : Dentry => strLt a.name b.name = true)
      (mp.dentryTree.filter (rdlInRange req)) := by
    refine h1.imp_of_mem ?_
    intro a b ha hb hr
    have hpa := ((rdlInRange_iff req a).mp (List.mem_filter.mp ha).2).1
    have hpb := ((rdlInRange_iff req b).mp (List.mem_filter.mp hb).2).1
    unfold dkLt dkey at hr
    simp only [Bool.or_eq_true, Bool.and_eq_true, decide_eq_true_eq, beq_iff_eq] at hr
    rcases hr with hr | ⟨_, hr⟩
    · omega
    · exact hr
  refine ⟨?_, ?_, ?_, ?_⟩
  · intro c hc
    rcases rdlVisit_mem req _ [] c hc with h | ⟨d, hd, dd, hr, hceq⟩
    · exact absurd h (List.not_mem_nil c)
    · obtain ⟨hdp, hdm⟩ := (rdlInRange_iff req d).mp (List.mem_filter.mp hd).2
      exact ⟨d, (List.mem_filter.mp hd).1, hdp, hdm, dd, hr, hceq⟩
  · exact rdlVisit_sorted req _ [] hsort List.Pairwise.nil
      (by intro a ha; exact absurd ha (List.not_mem_nil a))
  · intro hpos
    exact rdlVisit_length req _ [] hpos (by simpa using hpos)
  · intro hlim d hd hdp hdm dd hr
    exact rdlVisit_complete req hv hlim _ [] d dd
      (List.mem_filter.mpr ⟨hd, (rdlInRange_iff req d).mpr ⟨hdp, hdm⟩⟩) hr

/-- Witness for C3 amended: a two-child directory (names "a" and "b")
read with empty marker, no limit and seq zero satisfies membership,
ordering, cap and completeness. -/
theorem readDirLimit_paging_spec_witness :
    (∀ c ∈ readDirLimit
        ⟨[], [⟨1, "a", 2, 420, 0, false, []⟩, ⟨1, "b", 3, 420, 0, false, []⟩],
         [], [], 0, [], [], [], 7⟩ ⟨1, "", 0, 0, 0⟩,
      ∃ d ∈ [⟨1, "a", 2, 420, 0, false, []⟩, ⟨1, "b", 3, 420, 0, false, []⟩],
        Dentry.parentId d = 1 ∧ strLe "" d.name = true ∧
        ∃ dd, getDentryFromVerList d 0 = some dd ∧
          c = ChildDentry.mk dd.name dd.ino dd.typ) ∧
    List.Pairwise (fun a b : ChildDentry => strLt a.name b.name = true)
      (readDirLimit
        ⟨[], [⟨1, "a", 2, 420, 0, false, []⟩, ⟨1, "b", 3, 420, 0, false, []⟩],
         [], [], 0, [], [], [], 7⟩ ⟨1, "", 0, 0, 0⟩) ∧
    ((0 : Nat) < 0 → (readDirLimit
        ⟨[], [⟨1, "a", 2, 420, 0, false, []⟩, ⟨1, "b", 3, 420, 0, false, []⟩],
         [], [], 0, [], [], [], 7⟩ ⟨1, "", 0, 0, 0⟩).length ≤ 0) ∧
    ((0 : Nat) = 0 →
      ∀ d ∈ [⟨1, "a", 2, 420, 0, false, []⟩, ⟨1, "b", 3, 420, 0, false, []⟩],
        Dentry.parentId d = 1 → strLe "" d.name = true →
        ∀ dd, getDentryFromVerList d 0 = some dd →
          ChildDentry.mk dd.name dd.ino dd.typ ∈ readDirLimit
            ⟨[], [⟨1, "a", 2, 420, 0, false, []⟩, ⟨1, "b", 3, 420, 0, false, []⟩],
             [], [], 0, [], [], [], 7⟩ ⟨1, "", 0, 0, 0⟩) :=
  readDirLimit_paging_spec
    ⟨[], [⟨1, "a", 2, 420, 0, false, []⟩, ⟨1, "b", 3, 420, 0, false, []⟩],
     [], [], 0, [], [], [], 7⟩ ⟨1, "", 0, 0, 0⟩ (by decide) rfl

end CubeFS
